import Mathlib

/-!
Verification of the granola-tools synchronization pipeline and index builder.

The Python source is shallowly embedded: JSON/Python values are modelled by
the inductive type `JVal` (with integer numerics, which covers every numeric
value the verified claims touch), Python dict lookups by association-list
lookup, and code that can raise an exception returns an `Option` whose `none`
stands for the raised exception.  External library functions (the `requests`
HTTP layer, `json.loads`, the time-zone database) are taken as parameters.
-/

set_option maxRecDepth 4000

/-- A JSON / Python value as produced by `json.loads` and handled by the
sync and index code.  Object fields are an association list in insertion
order; numeric values are integers. -/
inductive JVal where
  | null : JVal
  | bool : Bool → JVal
  | num : Int → JVal
  | str : String → JVal
  | arr : List JVal → JVal
  | obj : List (String × JVal) → JVal

/-- Python truthiness (`bool(v)`) for a `JVal`: `None`, `False`, `0`, `""`,
`[]` and `{}` are falsy, everything else is truthy. -/
def truthy : JVal → Bool
  | .null => false
  | .bool b => b
  | .num n => n != 0
  | .str s => s != ""
  | .arr xs => !xs.isEmpty
  | .obj fs => !fs.isEmpty

/-- Lookup of a string key in an object field list (`d[k]` / `d.get(k)`
when the key is present). -/
def dictGet : List (String × JVal) → String → Option JVal
  | [], _ => none
  | (k, v) :: rest, key => if k = key then some v else dictGet rest key

/-- Python `d.get(key, default)` on an object: the default is used only when
the key is absent (a stored `None` is returned as `JVal.null`). -/
def dictGetD (fs : List (String × JVal)) (key : String) (d : JVal) : JVal :=
  (dictGet fs key).getD d

/-- Python `d.get(key)` where `key` is an arbitrary value and `d` is a
string-keyed dict (as produced by `json.loads`): an unhashable key (list or
dict) raises `TypeError` (outer `none`); any other non-string key hashes but
misses. -/
def pyMapLookup (m : List (String × JVal)) (key : JVal) : Option (Option JVal) :=
  match key with
  | .str s => some (dictGet m s)
  | .arr _ => none
  | .obj _ => none
  | _ => some none

/-- Python `a > b` on `JVal`s: defined for two strings (code-point
lexicographic), two numbers, or number/bool mixes (`bool` is an `int`);
any other combination raises `TypeError` (`none`). -/
def pyGt : JVal → JVal → Option Bool
  | .str a, .str b => some (decide (b < a))
  | .num a, .num b => some (decide (b < a))
  | .bool a, .bool b => some (a && !b)
  | .num a, .bool b => some (decide ((if b then (1 : Int) else 0) < a))
  | .bool a, .num b => some (decide (b < (if a then (1 : Int) else 0)))
  | _, _ => none

/-- `needs_sync(doc, sync_state)` from `sync.py`.  `none` models a raised
exception (non-dict inputs, a non-dict `documents` value or stored entry, or
an untypable `>` comparison). -/
def needs_sync (doc sync_state : JVal) : Option Bool :=
  match doc with
  | .obj dfs =>
    let doc_id := dictGetD dfs "id" .null
    if !truthy doc_id then some true
    else
      match sync_state with
      | .obj sfs =>
        match dictGetD sfs "documents" (.obj []) with
        | .obj dm =>
          match pyMapLookup dm doc_id with
          | none => none
          | some storedOpt =>
            let stored := storedOpt.getD .null
            if !truthy stored then some true
            else
              match stored with
              | .obj stfs =>
                let current_updated := dictGetD dfs "updated_at" .null
                let stored_updated := dictGetD stfs "updated_at" .null
                if !truthy current_updated || !truthy stored_updated then some true
                else pyGt current_updated stored_updated
              | _ => none
        | _ => none
      | _ => none
  | _ => none

/-! ### Size measure for `JVal`, used for termination of the renderer -/

mutual

def jsize : JVal → Nat
  | .null => 1
  | .bool _ => 1
  | .num _ => 1
  | .str _ => 1
  | .arr xs => 1 + jsizeList xs
  | .obj fs => 1 + jsizeFields fs

def jsizeList : List JVal → Nat
  | [] => 0
  | x :: xs => 1 + jsize x + jsizeList xs

def jsizeFields : List (String × JVal) → Nat
  | [] => 0
  | (_, v) :: fs => 1 + jsize v + jsizeFields fs

end

theorem jsize_pos : ∀ v : JVal, 1 ≤ jsize v := by
  intro v
  cases v <;> simp [jsize]

theorem dictGet_jsize_lt {fs : List (String × JVal)} {k : String} {v : JVal}
    (h : dictGet fs k = some v) : jsize v < jsize (.obj fs) := by
  simp only [jsize]
  induction fs with
  | nil => simp [dictGet] at h
  | cons kv rest ih =>
    obtain ⟨k1, v1⟩ := kv
    simp only [dictGet] at h
    by_cases hk : k1 = k
    · simp [hk] at h
      subst h
      simp [jsizeFields]
      omega
    · simp [hk] at h
      have := ih h
      simp [jsizeFields]
      omega

/-- Python `str.strip()` without arguments: remove leading and trailing
whitespace (including vertical tab and form feed). -/
def isPyWS (c : Char) : Bool :=
  c.isWhitespace || c.toNat = 11 || c.toNat = 12

/-- Python `s.strip()` on a string. -/
def pyStrip (s : String) : String :=
  ⟨((s.data.dropWhile isPyWS).reverse.dropWhile isPyWS).reverse⟩

/-! ### The ProseMirror renderer (`convert_prosemirror_to_markdown` in sync.py)

`Option`-valued: `none` models a raised Python exception (`AttributeError`
on `.get` of a non-dict, `TypeError` on iterating a non-iterable, on a
non-string item reaching `str.join`, or on repeating the hash character by a
non-integer level). -/

/-- Does a `JVal` equal a given Python string under Python equality? -/
def isStr : JVal → String → Bool
  | .str s, t => s = t
  | _, _ => false

/-- The string of hash marks produced by repeating the hash character
`level` times, for an integer level (a non-positive level yields the empty
string, as in Python). -/
def hashRepeat (n : Int) : String :=
  String.mk (List.replicate n.toNat (Char.ofNat 35))

/-- The hash-mark prefix of a heading node:
`node.get('attrs', {}).get('level', 1)` followed by repeating the hash
character; `none` when `attrs` is present but not a dict, or the level is
neither an integer nor a bool. -/
def headingHashes (fields : List (String × JVal)) : Option String :=
  match dictGet fields "attrs" with
  | none => some (hashRepeat 1)
  | some (.obj afs) =>
    match dictGet afs "level" with
    | none => some (hashRepeat 1)
    | some (.num n) => some (hashRepeat n)
    | some (.bool b) => some (if b then hashRepeat 1 else "")
    | some _ => none
  | some _ => none

mutual

/-- `process_node(node)` from `convert_prosemirror_to_markdown`.  Returns
the value Python would return: a string for every branch except the bare
`text` branch, which returns the raw `text` field value. -/
def processNode (v : JVal) : Option JVal :=
  match v with
  | .obj fields =>
    let nodeType := dictGetD fields "type" (.str "")
    let text := dictGetD fields "text" (.str "")
    if isStr nodeType "heading" then
      match headingHashes fields with
      | none => none
      | some hashes =>
        match h : dictGet fields "content" with
        | some c =>
          match processChildren c with
          | none => none
          | some ht => some (.str (hashes ++ " " ++ ht ++ "\n\n"))
        | none => some (.str (hashes ++ " " ++ "\n\n"))
    else if isStr nodeType "paragraph" then
      match h : dictGet fields "content" with
      | some c =>
        match processChildren c with
        | none => none
        | some pt => some (.str (pt ++ "\n\n"))
      | none => some (.str "\n\n")
    else if isStr nodeType "bulletList" then
      match h : dictGet fields "content" with
      | some c =>
        match processItemsVal c with
        | none => none
        | some items => some (.str (String.intercalate "\n" items ++ "\n\n"))
      | none => some (.str "\n\n")
    else if isStr nodeType "text" then
      some text
    else
      match h : dictGet fields "content" with
      | some c =>
        match processChildren c with
        | none => none
        | some s => some (.str s)
      | none => some (.str "")
  | _ => some (.str "")
termination_by jsize v
decreasing_by
  all_goals simp_wf
  all_goals exact dictGet_jsize_lt h

/-- `''.join(process_node(child) for child in content)`: iterating a list
processes its elements; iterating a string or dict yields strings (characters
or keys), each rendered to `""` by `process_node`; anything else raises. -/
def processChildren (c : JVal) : Option String :=
  match c with
  | .arr xs => processList xs
  | .str _ => some ""
  | .obj _ => some ""
  | _ => none
termination_by jsize c
decreasing_by
  all_goals simp_wf
  all_goals simp only [jsize]
  all_goals omega

/-- The `bulletList` item loop over an iterable `content` value: a
non-empty string or dict raises on `item.get` of the first non-dict item. -/
def processItemsVal (c : JVal) : Option (List String) :=
  match c with
  | .arr xs => processItemsList xs
  | .str s => if s = "" then some [] else none
  | .obj fs => if fs.isEmpty then some [] else none
  | _ => none
termination_by jsize c
decreasing_by
  all_goals simp_wf
  all_goals simp only [jsize]
  all_goals omega

/-- Join of processed children of a list, with the `str.join` type check:
a non-string `process_node` result raises. -/
def processList (xs : List JVal) : Option String :=
  match xs with
  | [] => some ""
  | x :: rest =>
    match processNode x with
    | none => none
    | some (.str s) =>
      match processList rest with
      | none => none
      | some tail => some (s ++ tail)
    | some _ => none
termination_by jsizeList xs
decreasing_by
  all_goals simp_wf
  all_goals simp only [jsizeList]
  all_goals omega

/-- The `bulletList` item loop over a list: a non-dict item raises; a dict
item whose `type` is `listItem` contributes a dash-prefixed line built from
its stripped joined children; other dict items are skipped. -/
def processItemsList (xs : List JVal) : Option (List String) :=
  match xs with
  | [] => some []
  | x :: rest =>
    match x with
    | .obj ifs =>
      if isStr (dictGetD ifs "type" .null) "listItem" then
        match hi : dictGet ifs "content" with
        | some c =>
          match processChildren c with
          | none => none
          | some ic =>
            match processItemsList rest with
            | none => none
            | some tail => some (("- " ++ pyStrip ic) :: tail)
        | none =>
          match processItemsList rest with
          | none => none
          | some tail => some (("- " ++ pyStrip "") :: tail)
      else
        processItemsList rest
    | _ => none
termination_by jsizeList xs
decreasing_by
  all_goals simp_wf
  all_goals first
    | (have h1 := dictGet_jsize_lt hi
       simp only [jsize] at h1
       simp only [jsizeList, jsize]
       omega)
    | (simp only [jsizeList, jsize]
       omega)

end

/-- `convert_prosemirror_to_markdown(content)` from sync.py: the guard
returns `""` for falsy, non-dict, or `content`-key-missing input, and
otherwise returns `process_node(content)` unchanged. -/
def convert_prosemirror_to_markdown (content : JVal) : Option JVal :=
  if !truthy content then some (.str "")
  else
    match content with
    | .obj fs =>
      if (dictGet fs "content").isSome then processNode content
      else some (.str "")
    | _ => some (.str "")

/-! ### Python `str.replace`, digit formatting, and the proleptic-Gregorian
calendar arithmetic used by `datetime` -/

/-- Python `s.replace(pat, rep)` on character lists: scan left to right,
replacing non-overlapping occurrences.  The fuel argument (instantiated with
the list length, which suffices because every step consumes at least one
character) keeps the recursion structural.  The sources only pass non-empty
patterns; an empty pattern leaves the input unchanged here. -/
def replaceGo (p r : List Char) : Nat → List Char → List Char
  | _, [] => []
  | 0, c :: cs => c :: cs
  | fuel + 1, c :: cs =>
    if p.isEmpty then c :: cs
    else if p.isPrefixOf (c :: cs) then r ++ replaceGo p r fuel ((c :: cs).drop p.length)
    else c :: replaceGo p r fuel cs

/-- Python `s.replace(pat, rep)` on strings. -/
def pyReplace (s pat rep : String) : String :=
  ⟨replaceGo pat.toList rep.toList s.data.length s.data⟩

theorem replaceGo_ne_nil {p r : List Char} (hr : r ≠ []) :
    ∀ (fuel : Nat) {cs : List Char}, cs ≠ [] → replaceGo p r fuel cs ≠ [] := by
  intro fuel cs hcs
  match fuel, cs with
  | _, [] => exact absurd rfl hcs
  | 0, c :: cs => simp [replaceGo]
  | fuel + 1, c :: cs =>
    rw [replaceGo]
    split
    · simp
    · split
      · simp [hr]
      · simp

theorem pyReplace_ne_empty {s pat rep : String} (hs : s ≠ "") (hr : rep ≠ "") :
    pyReplace s pat rep ≠ "" := by
  intro h
  have hdata : replaceGo pat.toList rep.toList s.data.length s.data = [] := by
    have := congrArg String.data h
    simpa [pyReplace] using this
  have hsd : s.data ≠ [] := by
    intro hnil
    exact hs (by cases s; simp_all)
  have hrd : rep.toList ≠ [] := by
    intro hnil
    exact hr (by cases rep; simp_all [String.toList])
  exact replaceGo_ne_nil hrd _ hsd hdata

/-- Decimal digits of a natural number, most significant first (fuel-guarded
structural recursion; the fuel is at least the digit count). -/
def natDigitsGo : Nat → Nat → List Char
  | 0, _ => []
  | fuel + 1, n =>
    if n < 10 then [Char.ofNat (48 + n)]
    else natDigitsGo fuel (n / 10) ++ [Char.ofNat (48 + n % 10)]

/-- Decimal digits of a natural number, most significant first. -/
def natDigits (n : Nat) : List Char :=
  natDigitsGo (n + 1) n

/-- Zero-padded decimal rendering to a minimum width. -/
def padNum (w : Nat) (n : Nat) : List Char :=
  List.replicate (w - (natDigits n).length) (Char.ofNat 48) ++ natDigits n

/-- Leap year test of the Gregorian calendar (`calendar.isleap`). -/
def isLeap (y : Int) : Bool :=
  y.emod 4 = 0 && (y.emod 100 != 0 || y.emod 400 = 0)

/-- Number of days in a month, as validated by `datetime`. -/
def daysInMonth (y m : Int) : Int :=
  if m = 2 then (if isLeap y then 29 else 28)
  else if m = 4 ∨ m = 6 ∨ m = 9 ∨ m = 11 then 30
  else 31

/-- Days since 1970-01-01 of a Gregorian civil date (Howard Hinnant's
`days_from_civil`, with floor division). -/
def daysFromCivil (y m d : Int) : Int :=
  let y1 := if m ≤ 2 then y - 1 else y
  let era := y1.ediv 400
  let yoe := y1 - era * 400
  let doy := ((153 * (m + (if m > 2 then -3 else 9)) + 2).ediv 5) + d - 1
  let doe := yoe * 365 + yoe.ediv 4 - yoe.ediv 100 + doy
  era * 146097 + doe - 719468

/-- Civil date from days since 1970-01-01 (Howard Hinnant's
`civil_from_days`, with floor division). -/
def civilFromDays (z0 : Int) : Int × Int × Int :=
  let z := z0 + 719468
  let era := z.ediv 146097
  let doe := z - era * 146097
  let yoe := (doe - doe.ediv 1460 + doe.ediv 36524 - doe.ediv 146096).ediv 365
  let y := yoe + era * 400
  let doy := doe - (365 * yoe + yoe.ediv 4 - yoe.ediv 100)
  let mp := (5 * doy + 2).ediv 153
  let d := doy - (153 * mp + 2).ediv 5 + 1
  let m := mp + (if mp < 10 then 3 else -9)
  (if m ≤ 2 then y + 1 else y, m, d)

/-! ### `datetime.fromisoformat` (the ISO forms the sources feed it) -/

/-- A `datetime.datetime` value: microseconds since the epoch read off the
civil fields at face value, plus the UTC offset of its `tzinfo` in seconds
(`none` for a naive datetime). -/
structure PyDateTime where
  micro : Int
  offsetSec : Option Int

/-- Read one decimal digit. -/
def digitVal (c : Char) : Option Nat :=
  if c.isDigit then some (c.toNat - 48) else none

/-- Read exactly `n` decimal digits, returning their value. -/
def parseNDigits : Nat → List Char → Option (Nat × List Char)
  | 0, cs => some (0, cs)
  | _ + 1, [] => none
  | n + 1, c :: cs => do
    let d ← digitVal c
    let (rest, cs1) ← parseNDigits n cs
    pure (d * 10 ^ n + rest, cs1)

/-- Read `".dddddd"`-style fractional seconds (1 to 6 digits), scaled to
microseconds. -/
def parseFraction (cs : List Char) : Option (Nat × List Char) :=
  let digs := cs.takeWhile Char.isDigit
  if digs.length = 0 ∨ 6 < digs.length then none
  else
    match parseNDigits digs.length digs with
    | some (v, _) => some (v * 10 ^ (6 - digs.length), cs.drop digs.length)
    | none => none

/-- Read a `±HH:MM[:SS]` UTC offset, in seconds. -/
def parseOffset (cs : List Char) : Option Int :=
  match cs with
  | sign :: rest =>
    if sign = Char.ofNat 43 ∨ sign = Char.ofNat 45 then do
      let (h, cs1) ← parseNDigits 2 rest
      match cs1 with
      | colon :: cs2 =>
        if colon = Char.ofNat 58 then do
          let (m, cs3) ← parseNDigits 2 cs2
          let (s, cs4) ←
            match cs3 with
            | colon2 :: cs3b =>
              if colon2 = Char.ofNat 58 then
                (parseNDigits 2 cs3b : Option (Nat × List Char))
              else none
            | [] => some (0, ([] : List Char))
          if cs4 = [] ∧ h ≤ 23 ∧ m ≤ 59 ∧ s ≤ 59 then
            let total : Int := (h : Int) * 3600 + m * 60 + s
            pure (if sign = Char.ofNat 45 then -total else total)
          else none
        else none
      | [] => none
    else none
  | [] => none

/-- Read `HH[:MM[:SS[.ffffff]]]` plus an optional offset, giving
(microseconds into the day, offset). -/
def parseTimePart (cs : List Char) : Option (Int × Option Int) := do
  let (h, cs1) ← parseNDigits 2 cs
  let (mi, cs2) ←
    match cs1 with
    | c :: rest =>
      if c = Char.ofNat 58 then (parseNDigits 2 rest : Option (Nat × List Char))
      else some (0, cs1)
    | [] => some (0, ([] : List Char))
  let (s, frac, cs3) ← (do
    match cs2 with
    | c :: rest =>
      if c = Char.ofNat 58 then do
        let (s, csa) ← parseNDigits 2 rest
        match csa with
        | d :: restb =>
          if d = Char.ofNat 46 then do
            let (f, csb) ← parseFraction restb
            pure (s, f, csb)
          else pure (s, 0, csa)
        | [] => pure (s, 0, ([] : List Char))
      else pure (0, 0, cs2)
    | [] => pure (0, 0, ([] : List Char))
    : Option (Nat × Nat × List Char))
  if h ≤ 23 ∧ mi ≤ 59 ∧ s ≤ 59 then
    let micro : Int := ((h : Int) * 3600 + mi * 60 + s) * 1000000 + frac
    match cs3 with
    | [] => pure (micro, none)
    | _ => do
      let off ← parseOffset cs3
      pure (micro, some off)
  else none

/-- `datetime.fromisoformat` on the ISO-8601 forms the sources produce and
consume: `YYYY-MM-DD`, optionally followed by a `T` or space separator,
`HH[:MM[:SS[.ffffff]]]` and a `±HH:MM[:SS]` offset. -/
def fromIso (s : String) : Option PyDateTime := do
  let cs := s.toList
  let (y, cs1) ← parseNDigits 4 cs
  match cs1 with
  | d1 :: cs2 =>
    if d1 = Char.ofNat 45 then do
      let (mo, cs3) ← parseNDigits 2 cs2
      match cs3 with
      | d2 :: cs4 =>
        if d2 = Char.ofNat 45 then do
          let (d, cs5) ← parseNDigits 2 cs4
          if 1 ≤ y ∧ y ≤ 9999 ∧ 1 ≤ mo ∧ mo ≤ 12 ∧ 1 ≤ d ∧
              (d : Int) ≤ daysInMonth y mo then
            let base : Int := daysFromCivil y mo d * 86400000000
            match cs5 with
            | [] => pure ⟨base, none⟩
            | sep :: cs6 =>
              if sep = Char.ofNat 84 ∨ sep = Char.ofNat 32 then do
                let (tmicro, off) ← parseTimePart cs6
                pure ⟨base + tmicro, off⟩
              else none
          else none
        else none
      | [] => none
    else none
  | [] => none

/-! ### `parse_dt` and `iso_z` from index.py -/

/-- Python `s.endswith(t)` for a one-character suffix, on lists. -/
def pyEndsWith (s t : String) : Bool :=
  t.toList.isSuffixOf s.toList

/-- `parse_dt(value)` from index.py: `None` (here `none`) for falsy or
non-string input, for a whitespace-only string, and for an unparseable
timestamp; otherwise the UTC instant in microseconds since the epoch (a
trailing `Z` is rewritten to `+00:00`; a naive result is taken as UTC;
an aware result is converted to UTC). -/
def parse_dt (value : JVal) : Option Int :=
  match value with
  | .str s0 =>
    if s0 = "" then none
    else
      let s1 := pyStrip s0
      if s1 = "" then none
      else
        let s2 := if pyEndsWith s1 "Z" then String.mk s1.data.dropLast ++ "+00:00" else s1
        match fromIso s2 with
        | none => none
        | some dt => some (dt.micro - (dt.offsetSec.getD 0) * 1000000)
  | _ => none

/-- The civil rendering `YYYY-MM-DDTHH:MM:SS` of a UTC instant whose
microsecond field has been zeroed. -/
def isoCivil (micro : Int) : List Char :=
  let secs := micro.ediv 1000000
  let days := secs.ediv 86400
  let sod := secs.emod 86400
  let ymd := civilFromDays days
  padNum 4 ymd.1.toNat ++ Char.ofNat 45 :: padNum 2 ymd.2.1.toNat ++
    Char.ofNat 45 :: padNum 2 ymd.2.2.toNat ++
    Char.ofNat 84 :: padNum 2 (sod.ediv 3600).toNat ++
    Char.ofNat 58 :: padNum 2 ((sod.emod 3600).ediv 60).toNat ++
    Char.ofNat 58 :: padNum 2 (sod.emod 60).toNat

/-- `iso_z(dt)` from index.py for a present UTC datetime:
`dt.replace(microsecond=0).isoformat().replace("+00:00", "Z")`. -/
def isoZStr (micro : Int) : String :=
  pyReplace (String.mk (isoCivil micro) ++ "+00:00") "+00:00" "Z"

theorem isoZStr_ne_empty (micro : Int) : isoZStr micro ≠ "" := by
  apply pyReplace_ne_empty
  · intro h
    have hd := congrArg String.data h
    simp [String.data_append, isoCivil] at hd
  · simp

/-! ### The remaining pure helpers of index.py -/

/-- A dict field of an optional value, when truthy (the
`isinstance(x, dict)` plus truthiness pattern of `choose_title`,
`choose_id` and `choose_date`). -/
def firstTruthyField (o : Option JVal) (key : String) : Option JVal :=
  match o with
  | some (.obj fs) =>
    let v := dictGetD fs key .null
    if truthy v then some v else none
  | _ => none

/-- First truthy value among `fs[k]` for `k` in `keys`. -/
def firstTruthyIn (fs : List (String × JVal)) : List String → Option JVal
  | [] => none
  | k :: ks =>
    let v := dictGetD fs k .null
    if truthy v then some v else firstTruthyIn fs ks

/-- The candidate keys scan of `choose_date` over an optional dict. -/
def truthyKeysOf (o : Option JVal) (keys : List String) : Option JVal :=
  match o with
  | some (.obj fs) => firstTruthyIn fs keys
  | _ => none

/-- The `google_calendar_event.start.dateTime` probe of `choose_date`. -/
def gceStartDateTime (doc : Option JVal) : Option JVal :=
  match doc with
  | some (.obj dfs) =>
    match dictGet dfs "google_calendar_event" with
    | some (.obj gfs) =>
      match dictGetD gfs "start" (.obj []) with
      | .obj sfs =>
        let v := dictGetD sfs "dateTime" .null
        if truthy v then some v else none
      | _ => none
    | _ => none
  | _ => none

/-- `choose_date(meta, doc)` from index.py. -/
def choose_date (meta doc : Option JVal) : JVal :=
  ((gceStartDateTime doc).orElse fun _ =>
    (truthyKeysOf meta ["meeting_date", "created_at", "updated_at"]).orElse fun _ =>
      truthyKeysOf doc ["created_at", "updated_at"]).getD .null

/-- `choose_title(meta, doc)` from index.py. -/
def choose_title (meta doc : Option JVal) : JVal :=
  ((firstTruthyField meta "title").orElse fun _ => firstTruthyField doc "title").getD .null

/-- `choose_id(meta, doc, folder_name)` from index.py (the folder name is
the guaranteed fallback). -/
def choose_id (meta doc : Option JVal) (folder_name : String) : JVal :=
  ((firstTruthyField meta "document_id").orElse fun _ =>
    firstTruthyField doc "id").getD (.str folder_name)

/-- `extract_attendees(doc)` from index.py. -/
def extract_attendees : Option JVal → JVal
  | some (.obj dfs) =>
    match dictGet dfs "people" with
    | some (.obj pfs) =>
      match dictGet pfs "attendees" with
      | some v => v
      | none => .null
    | _ => .null
  | _ => .null

/-- `parse_duration_json(value)` from index.py: a string is parsed as JSON
(via the `json.loads` parameter), a dict is used directly; the embedded
`duration` value is returned when it is an int, float, or bool. -/
def parse_duration_json (jsonLoads : String → Option JVal) (value : JVal) : Option JVal :=
  let durOf : JVal → Option JVal := fun data =>
    match data with
    | .obj fs =>
      match dictGet fs "duration" with
      | some (.num n) => some (.num n)
      | some (.bool b) => some (.bool b)
      | _ => none
    | _ => none
  match value with
  | .null => none
  | .str s =>
    match jsonLoads s with
    | none => none
    | some data => durOf data
  | .obj fs => durOf (.obj fs)
  | _ => none

/-- The start/end-instant path of `extract_duration`: both `dateTime`
strings truthy, both parse after `Z`-replacement, both naive or both aware
(otherwise the subtraction raises and the exception is swallowed), and the
truncated minute count is strictly positive. -/
def durationFromTimes (gfs : List (String × JVal)) : Option Int :=
  let startv := dictGetD gfs "start" (.obj [])
  let endv := dictGetD gfs "end" (.obj [])
  let start_dt := match startv with
    | .obj sfs => dictGetD sfs "dateTime" .null
    | _ => .null
  let end_dt := match endv with
    | .obj efs => dictGetD efs "dateTime" .null
    | _ => .null
  if truthy start_dt && truthy end_dt then
    match start_dt, end_dt with
    | .str ss, .str es =>
      match fromIso (pyReplace ss "Z" "+00:00"), fromIso (pyReplace es "Z" "+00:00") with
      | some sdt, some edt =>
        match sdt.offsetSec, edt.offsetSec with
        | some so, some eo =>
          let dm := ((edt.micro - eo * 1000000) - (sdt.micro - so * 1000000)).tdiv 60000000
          if 0 < dm then some dm else none
        | none, none =>
          let dm := (edt.micro - sdt.micro).tdiv 60000000
          if 0 < dm then some dm else none
        | _, _ => none
      | _, _ => none
    | _, _ => none
  else none

/-- The `extendedProperties` scan of one scope in `extract_duration`. -/
def scopeDur (jsonLoads : String → Option JVal) (efs : List (String × JVal))
    (scope : String) : Option JVal :=
  match dictGet efs scope with
  | some (.obj sfs) =>
    match parse_duration_json jsonLoads (dictGetD sfs "meetingParams" .null) with
    | some v => some v
    | none => parse_duration_json jsonLoads (dictGetD sfs "cron.zoomMeeting" .null)
  | _ => none

/-- The `extendedProperties` fallback of `extract_duration`: the `shared`
scope, then the `private` scope. -/
def durFromExt (jsonLoads : String → Option JVal) (gfs : List (String × JVal)) : Option JVal :=
  match dictGet gfs "extendedProperties" with
  | some (.obj efs) =>
    match scopeDur jsonLoads efs "shared" with
    | some v => some v
    | none => scopeDur jsonLoads efs "private"
  | _ => none

/-- `extract_duration(doc)` from index.py: the start/end instant path,
then the extended-properties fallback. -/
def extract_duration (jsonLoads : String → Option JVal) : Option JVal → Option JVal
  | some (.obj dfs) =>
    match dictGet dfs "google_calendar_event" with
    | some (.obj gfs) =>
      match durationFromTimes gfs with
      | some dm => some (.num dm)
      | none => durFromExt jsonLoads gfs
    | _ => none
  | _ => none

/-- Hexadecimal digit test for `int(hex, 16)` as used by `uuid.UUID`. -/
def isHexChar (c : Char) : Bool :=
  c.isDigit || (97 ≤ c.toNat && c.toNat ≤ 102) || (65 ≤ c.toNat && c.toNat ≤ 70)

/-- An opening or closing curly brace. -/
def isBrace (c : Char) : Bool :=
  c.toNat = 123 || c.toNat = 125

/-- `is_uuid_folder(name)` from index.py, following `uuid.UUID`'s string
normalization: drop `urn:` and `uuid:` occurrences, strip braces from both
ends, remove hyphens, and require exactly 32 hex digits. -/
def isUuidFolder (name : String) : Bool :=
  let cs := name.toList
  let cs := replaceGo "urn:".toList [] cs.length cs
  let cs := replaceGo "uuid:".toList [] cs.length cs
  let cs := ((cs.dropWhile isBrace).reverse.dropWhile isBrace).reverse
  let cs := cs.filter (fun c => c.toNat ≠ 45)
  cs.length = 32 && cs.all isHexChar

/-! ### `build_index` from index.py -/

/-- The local-time fields derived from `iso_local(dt_utc)` in `build_index`:
local ISO string, year, month, and short date.  The localization function
itself (`ZoneInfo` plus `astimezone`) is external and passed as a parameter;
`none` models a missing or invalid configured zone. -/
structure LocalTime where
  isoLocal : String
  year : Int
  month : Int
  dateShort : String

/-- One `os.scandir` entry of the artifact root, together with the parsed
content of its `metadata.json` and `document.json` (`none` when the file is
absent or unparseable, exactly as `read_json` yields), the existence flags
of the rendered files, and the directory's stat mtime. -/
structure DirEntry where
  name : String
  isDir : Bool
  meta : Option JVal
  doc : Option JVal
  hasTranscriptJson : Bool
  hasTranscriptMd : Bool
  hasResumeMd : Bool
  mtime : Int

/-- One record of the `meetings` list emitted by `build_index`. -/
structure MeetingRec where
  id : JVal
  short_id : JVal
  dir : String
  path : String
  transcript_path : String
  notes_path : String
  title : JVal
  date_utc : Option String
  date_local : Option String
  year : Option Int
  month : Option Int
  date_short : Option String
  attendees_raw : JVal
  duration_min : Option JVal
  has_transcript : Bool
  has_notes : Bool
  mtime : Int

instance : Inhabited MeetingRec :=
  ⟨{ id := .null, short_id := .null, dir := "", path := "", transcript_path := "",
     notes_path := "", title := .null, date_utc := none, date_local := none,
     year := none, month := none, date_short := none, attendees_raw := .null,
     duration_min := none, has_transcript := false, has_notes := false, mtime := 0 }⟩

/-- Python `full_id[:7]`: slicing works for strings and lists and raises a
`TypeError` for any other value. -/
def sliceTo7 : JVal → Option JVal
  | .str s => some (.str (String.mk (s.data.take 7)))
  | .arr xs => some (.arr (xs.take 7))
  | _ => none

/-- `full_id[:7] if full_id else entry.name[:7]` from `build_index`. -/
def shortIdOf (full_id : JVal) (name : String) : Option JVal :=
  if truthy full_id then sliceTo7 full_id
  else some (.str (String.mk (name.data.take 7)))

/-- One record of `build_index`, built from a directory entry; `none`
models the `TypeError` raised when a truthy non-sliceable id reaches the
`[:7]` slice. -/
def buildRecord (root : String) (localize : Int → Option LocalTime)
    (jsonLoads : String → Option JVal) (e : DirEntry) : Option MeetingRec :=
  let date_raw := choose_date e.meta e.doc
  let dt_utc := parse_dt date_raw
  let dt_local := dt_utc.bind localize
  let full_id := choose_id e.meta e.doc e.name
  (shortIdOf full_id e.name).map fun short_id =>
  { id := full_id
    short_id := short_id
    dir := e.name
    path := root ++ "/" ++ e.name
    transcript_path := root ++ "/" ++ e.name ++ "/transcript.md"
    notes_path := root ++ "/" ++ e.name ++ "/resume.md"
    title := choose_title e.meta e.doc
    date_utc := dt_utc.map isoZStr
    date_local := dt_local.map LocalTime.isoLocal
    year := dt_local.map LocalTime.year
    month := dt_local.map LocalTime.month
    date_short := dt_local.map LocalTime.dateShort
    attendees_raw := extract_attendees e.doc
    duration_min := extract_duration jsonLoads e.doc
    has_transcript := e.hasTranscriptJson || e.hasTranscriptMd
    has_notes := e.hasResumeMd
    mtime := e.mtime }

/-- The record loop of `build_index` over the filtered entries, propagating
a per-record exception. -/
def buildRecords (root : String) (localize : Int → Option LocalTime)
    (jsonLoads : String → Option JVal) : List DirEntry → Option (List MeetingRec)
  | [] => some []
  | e :: es =>
    match buildRecord root localize jsonLoads e with
    | none => none
    | some m => (buildRecords root localize jsonLoads es).map (m :: ·)

/-- The sort key of `build_index`:
`(m.get("date_utc") or "", m.get("dir") or "")`, compared lexicographically
as a pair of code-point-ordered strings. -/
def sortKey (m : MeetingRec) : Lex (String × String) :=
  toLex (m.date_utc.getD "", m.dir)

/-- The sort relation of `build_index`. -/
def recLe (a b : MeetingRec) : Prop :=
  sortKey a ≤ sortKey b

instance : DecidableRel recLe := fun a b =>
  inferInstanceAs (Decidable (sortKey a ≤ sortKey b))

instance : IsTotal MeetingRec recLe :=
  ⟨fun a b => le_total (sortKey a) (sortKey b)⟩

instance : IsTrans MeetingRec recLe :=
  ⟨fun _ _ _ hab hbc => le_trans hab hbc⟩

/-- The sorted `meetings` list of `build_index`: filter `os.scandir`
entries to directories with UUID names, build one record each, and sort by
`(date_utc or "", dir)` (Python's stable sort, modelled by insertion
sort, which is also stable). -/
def buildIndexMeetings (root : String) (localize : Int → Option LocalTime)
    (jsonLoads : String → Option JVal) (entries : List DirEntry) : Option (List MeetingRec) :=
  (buildRecords root localize jsonLoads
      (entries.filter fun e => e.isDir && isUuidFolder e.name)).map
    (List.insertionSort recLe)

/-- The payload written by `build_index`. -/
structure IndexSnapshot where
  schema_version : Int
  generated_at : String
  root : String
  meetings : List MeetingRec

/-- `build_index()` from index.py as a function of the scanned entries and
the wall-clock instant: the emitted payload, or `none` when a record raises. -/
def build_index (root : String) (localize : Int → Option LocalTime)
    (jsonLoads : String → Option JVal) (entries : List DirEntry)
    (nowMicro : Int) : Option IndexSnapshot :=
  (buildIndexMeetings root localize jsonLoads entries).map fun ms =>
    { schema_version := 1
      generated_at := isoZStr nowMicro
      root := root
      meetings := ms }

/-! ### `TokenManager` from token_manager.py -/

/-- The in-memory token state of `TokenManager` (`token_expiry` in naive
microseconds since the epoch, `none` for `None`). -/
structure TMState where
  refresh_token : JVal
  client_id : JVal
  access_token : JVal
  token_expiry : Option Int

/-- The state transition of a successful `refresh_access_token` HTTP
round-trip, applied to the parsed JSON `result` at wall-clock `now`:
`access_token := result.get("access_token")`, the refresh token rotated only
when `result.get("refresh_token")` is truthy, and the expiry set to
`now + timedelta(seconds=result.get("expires_in", 3600))`.  `none` models a
raised exception (non-dict result, or an `expires_in` value `timedelta`
rejects). -/
def applyRefreshResponse (st : TMState) (result : JVal) (now : Int) : Option TMState :=
  match result with
  | .obj fs =>
    let access := (dictGet fs "access_token").getD .null
    let newRefresh := (dictGet fs "refresh_token").getD .null
    let refresh := if truthy newRefresh then newRefresh else st.refresh_token
    match dictGet fs "expires_in" with
    | none =>
      some { st with access_token := access, refresh_token := refresh,
                     token_expiry := some (now + 3600 * 1000000) }
    | some (.num n) =>
      some { st with access_token := access, refresh_token := refresh,
                     token_expiry := some (now + n * 1000000) }
    | some (.bool b) =>
      some { st with access_token := access, refresh_token := refresh,
                     token_expiry := some (now + (if b then 1000000 else 0)) }
    | some _ => none
  | _ => none

/-- Python `v or ""` as passed by `_save_env` to `set_key`. -/
def pyOrEmptyStr (v : JVal) : JVal :=
  if truthy v then v else .str ""

/-- `datetime.isoformat()` of a naive instant (microseconds appended when
non-zero), as `_save_env` serializes `token_expiry`. -/
def isoNaiveStr (micro : Int) : String :=
  let frac := micro.emod 1000000
  String.mk (isoCivil micro) ++
    (if frac = 0 then "" else "." ++ String.mk (padNum 6 frac.toNat))

/-- `dotenv.set_key`: update the key in place when present, append it
otherwise. -/
def dictSet (env : List (String × JVal)) (key : String) (v : JVal) : List (String × JVal) :=
  if (env.map Prod.fst).contains key then
    env.map (fun kv => if kv.1 = key then (key, v) else kv)
  else env ++ [(key, v)]

/-- The sequence of `set_key` writes performed by `_save_env`: refresh
token, then access token, then (only when present) the expiry. -/
def saveEnvWrites (st : TMState) : List (String × JVal) :=
  [("GRANOLA_REFRESH_TOKEN", pyOrEmptyStr st.refresh_token),
   ("GRANOLA_ACCESS_TOKEN", pyOrEmptyStr st.access_token)] ++
  match st.token_expiry with
  | some t => [("GRANOLA_TOKEN_EXPIRY", .str (isoNaiveStr t))]
  | none => []

/-- Apply a list of `set_key` writes to a persisted env file. -/
def applyEnvWrites (env : List (String × JVal)) (ws : List (String × JVal)) :
    List (String × JVal) :=
  ws.foldl (fun e kv => dictSet e kv.1 kv.2) env

/-- `_save_env` interrupted after `k` successful `set_key` calls (the
surrounding `except` swallows the failure, leaving the prefix applied);
`k ≥ 3` is the uninterrupted save. -/
def saveEnvPartial (st : TMState) (env : List (String × JVal)) (k : Nat) :
    List (String × JVal) :=
  applyEnvWrites env ((saveEnvWrites st).take k)

/-! ### `fetch_documents_batch` from sync.py -/

/-- The batches `ids[i:i+bs]` for `i in range(0, len(ids), bs)` (fuel-guarded
structural recursion; the fuel, instantiated with the list length, suffices
for any positive batch size). -/
def chunkGo (bs : Nat) : Nat → List String → List (List String)
  | _, [] => []
  | 0, _ :: _ => []
  | fuel + 1, a :: l => ((a :: l).take bs) :: chunkGo bs fuel ((a :: l).drop bs)

/-- Partition a list of ids into fixed-size batches. -/
def chunkList (bs : Nat) (l : List String) : List (List String) :=
  chunkGo bs l.length l

/-- The documents contributed by one batch: the fetched list on success,
nothing when the batch raised a `requests` error (caught and logged). -/
def okDocs (fetchPage : List String → Except Unit (List JVal)) (batch : List String) :
    List JVal :=
  match fetchPage batch with
  | .ok docs => docs
  | .error _ => []

/-- `fetch_documents_batch(token, document_ids, batch_size)` from sync.py,
with the retry-wrapped `_fetch_batch_page` HTTP call abstracted as
`fetchPage` (`.error` models the `requests.exceptions.RequestException`
the loop catches). -/
def fetch_documents_batch (fetchPage : List String → Except Unit (List JVal))
    (document_ids : List String) (batch_size : Nat) : List JVal :=
  (chunkList batch_size document_ids).foldl
    (fun acc batch =>
      match fetchPage batch with
      | .ok docs => acc ++ docs
      | .error _ => acc) []

/-! ### The per-document loop of `run_sync` from sync.py -/

/-- Python `x == 0` for a JSON value (`False == 0` holds; no other
non-numeric value equals `0`). -/
def pyEqZero : JVal → Bool
  | .num n => n = 0
  | .bool b => !b
  | _ => false

/-- The evolving state of the `run_sync` document loop: the `documents`
map of the sync state, the document folders created so far (in order), the
three counters, and whether an uncaught exception aborted the run. -/
structure SyncLoopState where
  documents : List (String × JVal)
  createdDirs : List String
  synced : Nat
  skippedInProgress : Nat
  skippedUnchanged : Nat
  aborted : Bool

/-- One iteration of the `run_sync` document loop.  `bodyOk` says whether
the per-document `try` body (transcript fetch, file writes) succeeded;
a failure there is caught and logged, after the folder was already created.
Uncaught exceptions (a non-dict document, a `needs_sync` type error, a
truthy non-string id reaching the path join) set `aborted`. -/
def syncStep (bodyOk : Bool) (stamp : String) (st : SyncLoopState) (doc : JVal) :
    SyncLoopState :=
  if st.aborted then st
  else
    match doc with
    | .obj dfs =>
      let title := dictGetD dfs "title" (.str "Untitled Granola Note")
      let doc_id := dictGetD dfs "id" (.str "unknown_id")
      let mec := dictGetD dfs "meeting_end_count" (.num 0)
      if pyEqZero mec then { st with skippedInProgress := st.skippedInProgress + 1 }
      else
        match needs_sync doc (.obj [("documents", .obj st.documents)]) with
        | none => { st with aborted := true }
        | some false => { st with skippedUnchanged := st.skippedUnchanged + 1 }
        | some true =>
          match doc_id with
          | .str s =>
            let st1 := { st with createdDirs := st.createdDirs ++ [s] }
            if bodyOk then
              { st1 with
                documents := dictSet st.documents s
                  (.obj [("updated_at", dictGetD dfs "updated_at" .null),
                         ("title", title),
                         ("synced_at", .str stamp)])
                synced := st1.synced + 1 }
            else st1
          | _ => { st with aborted := true }
    | _ => { st with aborted := true }

/-- The `run_sync` document loop from document index `i` on. -/
def runSyncDocs (bodyOk : Nat → Bool) (stamp : Nat → String) :
    List JVal → SyncLoopState → Nat → SyncLoopState
  | [], st, _ => st
  | d :: ds, st, i => runSyncDocs bodyOk stamp ds (syncStep (bodyOk i) (stamp i) st d) (i + 1)

/-- The loop state at the start of `run_sync`: counters at zero, no folder
created, the loaded (or forced-empty) documents map. -/
def initLoopState (documents : List (String × JVal)) : SyncLoopState :=
  { documents := documents, createdDirs := [], synced := 0,
    skippedInProgress := 0, skippedUnchanged := 0, aborted := false }

/-- Is a document skipped as in-progress
(`doc.get("meeting_end_count", 0) == 0`)? -/
def docEndZero : JVal → Bool
  | .obj dfs => pyEqZero (dictGetD dfs "meeting_end_count" (.num 0))
  | _ => false

/-- The folder name `run_sync` would use for a document:
`doc.get("id", "unknown_id")` when that value is a string. -/
def docDirName : JVal → Option String
  | .obj dfs =>
    match dictGetD dfs "id" (.str "unknown_id") with
    | .str s => some s
    | _ => none
  | _ => none

/-- The `updated_at` field of a dict is absent, `None`, or a string. -/
def updFieldOk (fs : List (String × JVal)) : Bool :=
  match dictGet fs "updated_at" with
  | none => true
  | some .null => true
  | some (.str _) => true
  | some _ => false

/-- A well-formed remote document for the loop theorems: a dict whose `id`
is absent or a string and whose `updated_at` is absent, `None`, or a
string. -/
def docWF (d : JVal) : Bool :=
  match d with
  | .obj dfs =>
    (match dictGet dfs "id" with
     | none => true
     | some (.str _) => true
     | some _ => false) && updFieldOk dfs
  | _ => false

/-- A well-formed sync-state documents map: every stored entry is a dict
whose `updated_at` is absent, `None`, or a string. -/
def stateWF (documents : List (String × JVal)) : Bool :=
  documents.all fun kv =>
    match kv.2 with
    | .obj efs => updFieldOk efs
    | _ => false

/-! ### Well-formedness of rendered node trees -/

/-- A structurally well-formed ProseMirror node for the renderer: a dict
whose `text` (when present) is a string, whose `content` (when present) is a
list of well-formed nodes, and whose `attrs` (when present) is a dict whose
`level` (when present) is an int or bool. -/
inductive NodeWF : JVal → Prop
  | mk : ∀ fs : List (String × JVal),
      (∀ v, dictGet fs "text" = some v → ∃ s, v = .str s) →
      (∀ c, dictGet fs "content" = some c → ∃ xs, c = .arr xs) →
      (∀ xs, dictGet fs "content" = some (.arr xs) → ∀ x, x ∈ xs → NodeWF x) →
      (∀ a, dictGet fs "attrs" = some a → ∃ afs, a = .obj afs ∧
          ∀ lv, dictGet afs "level" = some lv → (∃ n, lv = .num n) ∨ (∃ b, lv = .bool b)) →
      NodeWF (.obj fs)

/-- The guard of `convert_prosemirror_to_markdown`: falsy input, a non-dict,
or a dict without a `content` key. -/
def topGuardFails (v : JVal) : Bool :=
  !truthy v ||
    (match v with
     | .obj fs => !(dictGet fs "content").isSome
     | _ => true)

/-! ### Helper lemmas -/

theorem not_string_lt_empty (s : String) : ¬ s < "" := by
  intro h
  rw [String.lt_iff_toList_lt] at h
  simp only [String.toList, String.data] at h
  exact List.Lex.not_nil_right _ _ h

theorem string_empty_le (s : String) : "" ≤ s :=
  not_lt.mp (not_string_lt_empty s)

theorem applyRefresh_fields {st st2 : TMState} {fs : List (String × JVal)} {now : Int}
    (h : applyRefreshResponse st (.obj fs) now = some st2) :
    st2.client_id = st.client_id ∧
    st2.refresh_token =
      (if truthy ((dictGet fs "refresh_token").getD .null)
       then (dictGet fs "refresh_token").getD .null
       else st.refresh_token) := by
  rcases hexp : dictGet fs "expires_in" with _ | v
  · simp only [applyRefreshResponse, hexp, Option.some.injEq] at h
    subst h
    exact ⟨rfl, rfl⟩
  · cases v
    all_goals simp only [applyRefreshResponse, hexp, Option.some.injEq] at h
    any_goals exact Option.noConfusion h
    all_goals subst h
    all_goals exact ⟨rfl, rfl⟩

/-! ### Claim C10 -/

/-- C10: for every sync state, `needs_sync` returns `True` for a document
whose `id` field is absent or the empty string, regardless of the stored
state. -/
theorem c10_no_id_needs_sync (state : JVal) (dfs : List (String × JVal))
    (h : dictGet dfs "id" = none ∨ dictGet dfs "id" = some (.str "")) :
    needs_sync (.obj dfs) state = some true := by
  rcases h with h | h <;> simp [needs_sync, dictGetD, h, truthy]

/-- Witness for C10 at a document with no `id` and a garbage state value. -/
theorem c10_no_id_needs_sync_witness :
    (dictGet ([] : List (String × JVal)) "id" = none) ∧
      needs_sync (.obj []) (.num 3) = some true :=
  ⟨rfl, c10_no_id_needs_sync (.num 3) [] (Or.inl rfl)⟩

/-! ### Claim C1 -/

/-- C1 counterexample: a document and a stored entry whose `updated_at`
values are present and equal (both the empty string), yet `needs_sync`
returns `True`, contradicting the claim that equal values yield `False`
(the code treats a falsy `updated_at` on either side as "needs sync"). -/
theorem c1_counterexample :
    needs_sync (.obj [("id", .str "a"), ("updated_at", .str "")])
      (.obj [("documents", .obj [("a", .obj [("updated_at", .str "")])])]) = some true := by
  rfl

/-- C1 (amended): `needs_sync` returns `True` for a string id with no entry
in the documents map, returns `True` when both `updated_at` values are
strings with the remote one strictly greater, and returns `False` when the
two `updated_at` values are equal non-empty strings (an empty or missing
value on either side yields `True` instead). -/
theorem c1_needs_sync_amended :
    (∀ (dfs sfs : List (String × JVal)) (dm : List (String × JVal)) (s : String),
        dictGetD dfs "id" .null = .str s →
        dictGetD sfs "documents" (.obj []) = .obj dm →
        dictGet dm s = none →
        needs_sync (.obj dfs) (.obj sfs) = some true) ∧
    (∀ (dfs sfs dm efs : List (String × JVal)) (s cu su : String),
        dictGetD dfs "id" .null = .str s →
        dictGetD sfs "documents" (.obj []) = .obj dm →
        dictGet dm s = some (.obj efs) →
        dictGetD dfs "updated_at" .null = .str cu →
        dictGetD efs "updated_at" .null = .str su →
        su < cu →
        needs_sync (.obj dfs) (.obj sfs) = some true) ∧
    (∀ (dfs sfs dm efs : List (String × JVal)) (s u : String),
        dictGetD dfs "id" .null = .str s → s ≠ "" →
        dictGetD sfs "documents" (.obj []) = .obj dm →
        dictGet dm s = some (.obj efs) →
        dictGetD dfs "updated_at" .null = .str u →
        dictGetD efs "updated_at" .null = .str u →
        u ≠ "" →
        needs_sync (.obj dfs) (.obj sfs) = some false) := by
  refine ⟨?_, ?_, ?_⟩
  · intro dfs sfs dm s hid hdocs hnone
    by_cases hs : s = ""
    · subst hs
      simp [needs_sync, hid, truthy]
    · simp [needs_sync, hid, truthy, hs, hdocs, pyMapLookup, hnone]
  · intro dfs sfs dm efs s cu su hid hdocs hstored hcu hsu hlt
    by_cases hs : s = ""
    · subst hs
      simp [needs_sync, hid, truthy]
    · have hefs : efs ≠ [] := by
        intro hnil
        subst hnil
        simp [dictGetD, dictGet] at hsu
      have hcune : cu ≠ "" := by
        intro hnil
        subst hnil
        exact not_string_lt_empty su hlt
      by_cases hsue : su = ""
      · subst hsue
        simp [needs_sync, hid, truthy, hs, hdocs, pyMapLookup, hstored, hcu, hsu, hefs, hcune]
      · simp [needs_sync, hid, truthy, hs, hdocs, pyMapLookup, hstored, hcu, hsu, hefs,
          hcune, hsue, pyGt, hlt]
  · intro dfs sfs dm efs s u hid hs hdocs hstored hu hsu hune
    have hefs : efs ≠ [] := by
      intro hnil
      subst hnil
      simp [dictGetD, dictGet] at hsu
    simp [needs_sync, hid, truthy, hs, hdocs, pyMapLookup, hstored, hu, hsu, hefs,
      hune, pyGt]

/-- Witness for the amended C1 at a concrete unchanged document. -/
theorem c1_needs_sync_amended_witness :
    needs_sync (.obj [("id", .str "a"), ("updated_at", .str "2024")])
      (.obj [("documents", .obj [("a", .obj [("updated_at", .str "2024")])])]) = some false :=
  c1_needs_sync_amended.2.2 _ _ _ _ "a" "2024" rfl (by decide) rfl rfl rfl rfl (by decide)

/-! ### Claim C5 -/

/-- C5: after a successful refresh, a response without a `refresh_token`
field leaves the stored refresh token (and client id) unchanged, and a
response carrying a non-empty string `refresh_token` replaces it. -/
theorem c5_refresh_token_rotation :
    (∀ (st : TMState) (fs : List (String × JVal)) (now : Int) (st2 : TMState),
        dictGet fs "refresh_token" = none →
        applyRefreshResponse st (.obj fs) now = some st2 →
        st2.refresh_token = st.refresh_token ∧ st2.client_id = st.client_id) ∧
    (∀ (st : TMState) (fs : List (String × JVal)) (now : Int) (st2 : TMState) (s : String),
        dictGet fs "refresh_token" = some (.str s) → s ≠ "" →
        applyRefreshResponse st (.obj fs) now = some st2 →
        st2.refresh_token = .str s) := by
  constructor
  · intro st fs now st2 h happ
    obtain ⟨hc, hr⟩ := applyRefresh_fields happ
    rw [h] at hr
    simp [truthy] at hr
    exact ⟨hr, hc⟩
  · intro st fs now st2 s h hs happ
    obtain ⟨hc, hr⟩ := applyRefresh_fields happ
    rw [h] at hr
    simp [truthy, hs] at hr
    exact hr

/-- Witness for C5: a refresh without rotation and one with rotation. -/
theorem c5_refresh_token_rotation_witness :
    (applyRefreshResponse ⟨.str "oldR", .str "cid", .null, none⟩
        (.obj [("access_token", .str "newA")]) 0 =
      some ⟨.str "oldR", .str "cid", .str "newA", some 3600000000⟩) ∧
    TMState.refresh_token ⟨.str "oldR", .str "cid", .str "newA", some 3600000000⟩ =
      .str "oldR" ∧
    (applyRefreshResponse ⟨.str "oldR", .str "cid", .null, none⟩
        (.obj [("refresh_token", .str "newR")]) 0 =
      some ⟨.str "newR", .str "cid", .null, some 3600000000⟩) ∧
    TMState.refresh_token ⟨.str "newR", .str "cid", .null, some 3600000000⟩ =
      .str "newR" :=
  ⟨rfl,
    (c5_refresh_token_rotation.1 ⟨.str "oldR", .str "cid", .null, none⟩
      [("access_token", .str "newA")] 0
      ⟨.str "oldR", .str "cid", .str "newA", some 3600000000⟩ rfl rfl).1,
    rfl,
    c5_refresh_token_rotation.2 ⟨.str "oldR", .str "cid", .null, none⟩
      [("refresh_token", .str "newR")] 0
      ⟨.str "newR", .str "cid", .null, some 3600000000⟩ "newR" rfl (by decide) rfl⟩

/-! ### Claim C9 -/

theorem dictGet_map_set_same {env : List (String × JVal)} {k : String} {v : JVal}
    (h : ((env.map Prod.fst).contains k) = true) :
    dictGet (env.map fun kv => if kv.1 = k then (k, v) else kv) k = some v := by
  induction env with
  | nil => simp at h
  | cons a rest ih =>
    obtain ⟨a1, a2⟩ := a
    by_cases ha : a1 = k
    · subst ha
      have hm : List.map (fun kv : String × JVal => if kv.1 = a1 then (a1, v) else kv)
            ((a1, a2) :: rest)
          = (a1, v) :: List.map (fun kv => if kv.1 = a1 then (a1, v) else kv) rest := by
        rw [List.map_cons]
        congr 1
        exact if_pos rfl
      rw [hm]
      simp [dictGet]
    · have h2 : ((rest.map Prod.fst).contains k) = true := by
        simp only [List.map_cons, List.contains_cons, Bool.or_eq_true, beq_iff_eq] at h
        rcases h with h | h
        · exact absurd h.symm ha
        · exact h
      have hm : List.map (fun kv : String × JVal => if kv.1 = k then (k, v) else kv)
            ((a1, a2) :: rest)
          = (a1, a2) :: List.map (fun kv => if kv.1 = k then (k, v) else kv) rest := by
        rw [List.map_cons]
        congr 1
        exact if_neg ha
      rw [hm]
      simp [dictGet, ha, ih h2]

theorem dictGet_map_set_other {env : List (String × JVal)} {k k' : String} {v : JVal}
    (h : k' ≠ k) :
    dictGet (env.map fun kv => if kv.1 = k then (k, v) else kv) k' = dictGet env k' := by
  induction env with
  | nil => simp [dictGet]
  | cons a rest ih =>
    obtain ⟨a1, a2⟩ := a
    by_cases ha : a1 = k
    · subst ha
      have hm : List.map (fun kv : String × JVal => if kv.1 = a1 then (a1, v) else kv)
            ((a1, a2) :: rest)
          = (a1, v) :: List.map (fun kv => if kv.1 = a1 then (a1, v) else kv) rest := by
        rw [List.map_cons]
        congr 1
        exact if_pos rfl
      rw [hm]
      simp [dictGet, Ne.symm h, ih]
    · have hm : List.map (fun kv : String × JVal => if kv.1 = k then (k, v) else kv)
            ((a1, a2) :: rest)
          = (a1, a2) :: List.map (fun kv => if kv.1 = k then (k, v) else kv) rest := by
        rw [List.map_cons]
        congr 1
        exact if_neg ha
      rw [hm]
      by_cases hk : a1 = k'
      · subst hk
        simp [dictGet]
      · simp [dictGet, hk, ih]

theorem dictGet_eq_none_of_not_contains {env : List (String × JVal)} {k : String}
    (h : ((env.map Prod.fst).contains k) = false) : dictGet env k = none := by
  induction env with
  | nil => rfl
  | cons a rest ih =>
    obtain ⟨a1, a2⟩ := a
    simp only [List.map_cons, List.contains_cons, Bool.or_eq_false_iff] at h
    have ha : a1 ≠ k := Ne.symm (by simpa using h.1)
    simp [dictGet, ha, ih h.2]

theorem dictGet_append (a b : List (String × JVal)) (k : String) :
    dictGet (a ++ b) k =
      match dictGet a k with
      | some v => some v
      | none => dictGet b k := by
  induction a with
  | nil => simp [dictGet]
  | cons x rest ih =>
    obtain ⟨x1, x2⟩ := x
    by_cases hx : x1 = k
    · simp [dictGet, hx]
    · simp [dictGet, hx, ih]

theorem dictGet_dictSet_same (env : List (String × JVal)) (k : String) (v : JVal) :
    dictGet (dictSet env k v) k = some v := by
  by_cases hc : ((env.map Prod.fst).contains k) = true
  · simp only [dictSet, if_pos hc]
    exact dictGet_map_set_same hc
  · simp only [dictSet, if_neg hc]
    rw [dictGet_append]
    rw [dictGet_eq_none_of_not_contains (by simpa using hc)]
    simp [dictGet]

theorem dictGet_dictSet_other (env : List (String × JVal)) {k k' : String} (v : JVal)
    (h : k' ≠ k) : dictGet (dictSet env k v) k' = dictGet env k' := by
  by_cases hc : ((env.map Prod.fst).contains k) = true
  · simp only [dictSet, if_pos hc]
    exact dictGet_map_set_other h
  · simp only [dictSet, if_neg hc]
    rw [dictGet_append]
    split
    · rename_i v2 hv2
      exact hv2.symm
    · rename_i heq
      rw [heq]
      simp [dictGet, Ne.symm h]

theorem applyEnvWrites_frame (ws : List (String × JVal)) (env : List (String × JVal))
    (key : String) (h : ∀ kv ∈ ws, kv.1 ≠ key) :
    dictGet (applyEnvWrites env ws) key = dictGet env key := by
  induction ws generalizing env with
  | nil => rfl
  | cons w rest ih =>
    have hstep : applyEnvWrites env (w :: rest) = applyEnvWrites (dictSet env w.1 w.2) rest :=
      rfl
    rw [hstep, ih _ (fun kv hkv => h kv (List.mem_cons_of_mem _ hkv))]
    exact dictGet_dictSet_other env _ (fun hh => h w (List.mem_cons_self _ _) hh.symm)

/-- C9 counterexample: `_save_env` interrupted after its first `set_key`
leaves a persisted state that mixes the new refresh token with the old
access token — neither the prior state nor the whole new state, refuting
the transactional-persistence claim. -/
theorem c9_counterexample :
    (dictGet (saveEnvPartial ⟨.str "newR", .null, .str "newA", none⟩
        [("GRANOLA_REFRESH_TOKEN", .str "oldR"), ("GRANOLA_ACCESS_TOKEN", .str "oldA")] 1)
      "GRANOLA_REFRESH_TOKEN" = some (.str "newR")) ∧
    (dictGet (saveEnvPartial ⟨.str "newR", .null, .str "newA", none⟩
        [("GRANOLA_REFRESH_TOKEN", .str "oldR"), ("GRANOLA_ACCESS_TOKEN", .str "oldA")] 1)
      "GRANOLA_ACCESS_TOKEN" = some (.str "oldA")) ∧
    (dictGet (saveEnvPartial ⟨.str "newR", .null, .str "newA", none⟩
        [("GRANOLA_REFRESH_TOKEN", .str "oldR"), ("GRANOLA_ACCESS_TOKEN", .str "oldA")] 3)
      "GRANOLA_ACCESS_TOKEN" = some (.str "newA")) :=
  ⟨rfl, rfl, rfl⟩

/-- C9 (amended): `_save_env` writes the three keys sequentially and
non-atomically.  An uninterrupted save persists the full state (all three
keys take their new values); an interrupted save leaves exactly the prefix
of completed writes applied, so every key outside that prefix retains its
prior persisted value — a partially-updated state is reachable. -/
theorem c9_save_env_amended :
    (∀ (st : TMState) (env : List (String × JVal)),
        dictGet (saveEnvPartial st env 3) "GRANOLA_REFRESH_TOKEN" =
          some (pyOrEmptyStr st.refresh_token) ∧
        dictGet (saveEnvPartial st env 3) "GRANOLA_ACCESS_TOKEN" =
          some (pyOrEmptyStr st.access_token) ∧
        (∀ t, st.token_expiry = some t →
          dictGet (saveEnvPartial st env 3) "GRANOLA_TOKEN_EXPIRY" =
            some (.str (isoNaiveStr t)))) ∧
    (∀ (st : TMState) (env : List (String × JVal)) (k : Nat) (key : String),
        (∀ kv ∈ (saveEnvWrites st).take k, kv.1 ≠ key) →
        dictGet (saveEnvPartial st env k) key = dictGet env key) := by
  constructor
  · intro st env
    obtain ⟨r, c, a, e⟩ := st
    rcases e with _ | t
    · refine ⟨?_, ?_, ?_⟩
      · show dictGet (dictSet (dictSet env "GRANOLA_REFRESH_TOKEN" (pyOrEmptyStr r))
            "GRANOLA_ACCESS_TOKEN" (pyOrEmptyStr a)) "GRANOLA_REFRESH_TOKEN" = _
        rw [dictGet_dictSet_other _ _
          (show "GRANOLA_REFRESH_TOKEN" ≠ "GRANOLA_ACCESS_TOKEN" by decide)]
        exact dictGet_dictSet_same _ _ _
      · show dictGet (dictSet (dictSet env "GRANOLA_REFRESH_TOKEN" (pyOrEmptyStr r))
            "GRANOLA_ACCESS_TOKEN" (pyOrEmptyStr a)) "GRANOLA_ACCESS_TOKEN" = _
        exact dictGet_dictSet_same _ _ _
      · intro t ht
        exact Option.noConfusion ht
    · refine ⟨?_, ?_, ?_⟩
      · show dictGet (dictSet (dictSet (dictSet env "GRANOLA_REFRESH_TOKEN" (pyOrEmptyStr r))
            "GRANOLA_ACCESS_TOKEN" (pyOrEmptyStr a))
            "GRANOLA_TOKEN_EXPIRY" (.str (isoNaiveStr t))) "GRANOLA_REFRESH_TOKEN" = _
        rw [dictGet_dictSet_other _ _
            (show "GRANOLA_REFRESH_TOKEN" ≠ "GRANOLA_TOKEN_EXPIRY" by decide),
          dictGet_dictSet_other _ _
            (show "GRANOLA_REFRESH_TOKEN" ≠ "GRANOLA_ACCESS_TOKEN" by decide)]
        exact dictGet_dictSet_same _ _ _
      · show dictGet (dictSet (dictSet (dictSet env "GRANOLA_REFRESH_TOKEN" (pyOrEmptyStr r))
            "GRANOLA_ACCESS_TOKEN" (pyOrEmptyStr a))
            "GRANOLA_TOKEN_EXPIRY" (.str (isoNaiveStr t))) "GRANOLA_ACCESS_TOKEN" = _
        rw [dictGet_dictSet_other _ _
          (show "GRANOLA_ACCESS_TOKEN" ≠ "GRANOLA_TOKEN_EXPIRY" by decide)]
        exact dictGet_dictSet_same _ _ _
      · intro t2 ht
        have ht2 : t2 = t := by
          simpa using ht.symm
        subst ht2
        show dictGet (dictSet (dictSet (dictSet env "GRANOLA_REFRESH_TOKEN" (pyOrEmptyStr r))
            "GRANOLA_ACCESS_TOKEN" (pyOrEmptyStr a))
            "GRANOLA_TOKEN_EXPIRY" (.str (isoNaiveStr t2))) "GRANOLA_TOKEN_EXPIRY" = _
        exact dictGet_dictSet_same _ _ _
  · intro st env k key h
    exact applyEnvWrites_frame _ _ _ h

/-- Witness for the amended C9: a save with no expiry set, interrupted
after one write, leaves the access-token key at its prior value; the full
save is also exercised. -/
theorem c9_save_env_amended_witness :
    (dictGet (saveEnvPartial ⟨.str "r2", .null, .str "a2", none⟩
        [("GRANOLA_ACCESS_TOKEN", .str "a1")] 1) "GRANOLA_ACCESS_TOKEN" =
      some (.str "a1")) ∧
    (dictGet (saveEnvPartial ⟨.str "r2", .null, .str "a2", none⟩
        [("GRANOLA_ACCESS_TOKEN", .str "a1")] 3) "GRANOLA_ACCESS_TOKEN" =
      some (.str "a2")) :=
  ⟨by
    rw [c9_save_env_amended.2 ⟨.str "r2", .null, .str "a2", none⟩
      [("GRANOLA_ACCESS_TOKEN", .str "a1")] 1 "GRANOLA_ACCESS_TOKEN"
      (by intro kv hkv; simp [saveEnvWrites] at hkv; subst hkv; decide)]
    rfl,
   (c9_save_env_amended.1 ⟨.str "r2", .null, .str "a2", none⟩
      [("GRANOLA_ACCESS_TOKEN", .str "a1")]).2.1⟩

/-! ### Claim C4 -/

theorem chunkGo_flatten {bs : Nat} (hbs : 0 < bs) :
    ∀ (fuel : Nat) (l : List String), l.length ≤ fuel → (chunkGo bs fuel l).flatten = l := by
  intro fuel
  induction fuel with
  | zero =>
    intro l hl
    cases l with
    | nil => rfl
    | cons a t => simp at hl
  | succ fuel ih =>
    intro l hl
    cases l with
    | nil => rfl
    | cons a t =>
      simp only [chunkGo, List.flatten_cons]
      rw [ih]
      · exact List.take_append_drop _ _
      · rw [List.length_drop]
        simp only [List.length_cons] at hl ⊢
        omega

theorem fetch_batch_eq_flatten_aux (fp : List String → Except Unit (List JVal)) :
    ∀ (cs : List (List String)) (acc : List JVal),
      cs.foldl (fun acc batch =>
          match fp batch with
          | .ok docs => acc ++ docs
          | .error _ => acc) acc
        = acc ++ (cs.map (okDocs fp)).flatten := by
  intro cs
  induction cs with
  | nil =>
    intro acc
    simp
  | cons c rest ih =>
    intro acc
    simp only [List.foldl_cons, List.map_cons, List.flatten_cons]
    rw [ih]
    cases h : fp c <;> simp [okDocs, h]

theorem fetch_batch_eq_flatten (fp : List String → Except Unit (List JVal))
    (ids : List String) (bs : Nat) :
    fetch_documents_batch fp ids bs = ((chunkList bs ids).map (okDocs fp)).flatten := by
  unfold fetch_documents_batch
  rw [fetch_batch_eq_flatten_aux]
  rfl

theorem flatten_map_eraseIdx {α β : Type} (f : α → List β) :
    ∀ (l : List α) (j : Nat) (hj : j < l.length), f (l.get ⟨j, hj⟩) = [] →
      (l.map f).flatten = ((l.eraseIdx j).map f).flatten := by
  intro l
  induction l with
  | nil =>
    intro j hj
    simp at hj
  | cons a t ih =>
    intro j hj hf
    cases j with
    | zero =>
      simp only [List.get] at hf
      simp [List.eraseIdx, hf]
    | succ n =>
      simp only [List.get] at hf
      simp only [List.eraseIdx, List.map_cons, List.flatten_cons]
      rw [ih n (by simpa using hj) hf]

/-- C4: when a batch fetch is partitioned into fixed-size chunks, the
chunks partition the id list; and when exactly one chunk's fetch fails
(the others succeeding), the loop returns, without raising, exactly the
concatenated documents of the remaining chunks in order — the failed
chunk is skipped, not fatal. -/
theorem c4_batch_fetch (fp : List String → Except Unit (List JVal)) (ids : List String)
    (bs j : Nat) (hbs : 0 < bs) (hj : j < (chunkList bs ids).length)
    (hfail : fp ((chunkList bs ids).get ⟨j, hj⟩) = .error ())
    (hok : ∀ k (hk : k < (chunkList bs ids).length), k ≠ j →
        ∃ ds, fp ((chunkList bs ids).get ⟨k, hk⟩) = .ok ds) :
    (chunkList bs ids).flatten = ids ∧
    fetch_documents_batch fp ids bs =
      (((chunkList bs ids).eraseIdx j).map (okDocs fp)).flatten := by
  constructor
  · exact chunkGo_flatten hbs _ _ le_rfl
  · rw [fetch_batch_eq_flatten]
    have h2 : okDocs fp ((chunkList bs ids).get ⟨j, hj⟩) = [] := by
      unfold okDocs
      rw [hfail]
    exact flatten_map_eraseIdx _ _ j hj h2

/-- Witness for C4: three chunks of size one, the middle one failing. -/
theorem c4_batch_fetch_witness :
    (chunkList 1 ["a", "b", "c"]).flatten = ["a", "b", "c"] ∧
    fetch_documents_batch
        (fun c => if c = ["b"] then .error () else .ok [.str "D"]) ["a", "b", "c"] 1 =
      (((chunkList 1 ["a", "b", "c"]).eraseIdx 1).map
        (okDocs (fun c => if c = ["b"] then .error () else .ok [.str "D"]))).flatten :=
  c4_batch_fetch _ ["a", "b", "c"] 1 1 (by decide) (by decide) rfl
    (by
      intro k hk hne
      have hl3 : (chunkList 1 ["a", "b", "c"]).length = 3 := rfl
      rw [hl3] at hk
      interval_cases k
      · exact ⟨[.str "D"], rfl⟩
      · exact absurd rfl hne
      · exact ⟨[.str "D"], rfl⟩)

/-! ### Claim C2 -/

theorem dictGet_mem {l : List (String × JVal)} {k : String} {v : JVal}
    (h : dictGet l k = some v) : (k, v) ∈ l := by
  induction l with
  | nil => simp [dictGet] at h
  | cons a rest ih =>
    obtain ⟨a1, a2⟩ := a
    by_cases ha : a1 = k
    · subst ha
      simp [dictGet] at h
      subst h
      exact List.mem_cons_self _ _
    · simp only [dictGet, if_neg ha] at h
      exact List.mem_cons_of_mem _ (ih h)

theorem dictSet_mem_cases {dm : List (String × JVal)} {k : String} {v : JVal}
    {kv : String × JVal} (h : kv ∈ dictSet dm k v) : kv ∈ dm ∨ kv = (k, v) := by
  by_cases hc : ((dm.map Prod.fst).contains k) = true
  · simp only [dictSet, if_pos hc] at h
    obtain ⟨a, ha, hfa⟩ := List.mem_map.mp h
    by_cases hak : a.1 = k
    · right
      rw [if_pos hak] at hfa
      exact hfa.symm
    · left
      rw [if_neg hak] at hfa
      exact hfa ▸ ha
  · simp only [dictSet, if_neg hc] at h
    rcases List.mem_append.mp h with h | h
    · exact Or.inl h
    · exact Or.inr (by simpa using h)

theorem docWF_id {dfs : List (String × JVal)} (h : docWF (.obj dfs) = true) :
    dictGet dfs "id" = none ∨ ∃ s, dictGet dfs "id" = some (.str s) := by
  simp only [docWF, Bool.and_eq_true] at h
  rcases hm : dictGet dfs "id" with _ | v
  · exact Or.inl rfl
  · rw [hm] at h
    cases v <;> simp_all

theorem docWF_upd {dfs : List (String × JVal)} (h : docWF (.obj dfs) = true) :
    updFieldOk dfs = true := by
  simp only [docWF, Bool.and_eq_true] at h
  exact h.2

theorem updFieldOk_cases {fs : List (String × JVal)} (h : updFieldOk fs = true) :
    (dictGet fs "updated_at").getD .null = .null ∨
      ∃ s, (dictGet fs "updated_at").getD .null = .str s := by
  simp only [updFieldOk] at h
  rcases hm : dictGet fs "updated_at" with _ | v
  · exact Or.inl (by simp [hm])
  · rw [hm] at h
    cases v <;> simp_all

theorem stateWF_entry {dm : List (String × JVal)} {k : String} {v : JVal}
    (hs : stateWF dm = true) (hv : dictGet dm k = some v) :
    ∃ efs, v = .obj efs ∧ updFieldOk efs = true := by
  have hm := dictGet_mem hv
  have := (List.all_eq_true.mp hs) _ hm
  cases v <;> simp_all

theorem stateWF_dictSet {dm : List (String × JVal)} {k : String} {efs : List (String × JVal)}
    (hs : stateWF dm = true) (he : updFieldOk efs = true) :
    stateWF (dictSet dm k (.obj efs)) = true := by
  apply List.all_eq_true.mpr
  intro kv hkv
  rcases dictSet_mem_cases hkv with h | h
  · exact (List.all_eq_true.mp hs) _ h
  · subst h
    simpa using he

theorem needs_sync_wf_some {d : JVal} {dm : List (String × JVal)}
    (hd : docWF d = true) (hs : stateWF dm = true) :
    ∃ b, needs_sync d (.obj [("documents", .obj dm)]) = some b := by
  cases d with
  | obj dfs =>
    have hupd := docWF_upd hd
    rcases docWF_id hd with hid | ⟨s, hid⟩
    · exact ⟨true, by simp [needs_sync, dictGetD, hid, truthy]⟩
    · by_cases hse : s = ""
      · subst hse
        exact ⟨true, by simp [needs_sync, dictGetD, hid, truthy]⟩
      · rcases hst : dictGet dm s with _ | v
        · exact ⟨true, by
            simp [needs_sync, dictGetD, hid, truthy, hse, pyMapLookup, hst, dictGet]⟩
        · obtain ⟨efs, rfl, hef⟩ := stateWF_entry hs hst
          cases hefs : efs.isEmpty
          · rcases updFieldOk_cases hupd with hcu | ⟨cu, hcu⟩
            · exact ⟨true, by
                simp [needs_sync, dictGetD, hid, truthy, hse, pyMapLookup, hst, dictGet,
                  hefs, hcu]⟩
            · by_cases hcue : cu = ""
              · subst hcue
                exact ⟨true, by
                  simp [needs_sync, dictGetD, hid, truthy, hse, pyMapLookup, hst, dictGet,
                    hefs, hcu]⟩
              · rcases updFieldOk_cases hef with hsu | ⟨su, hsu⟩
                · exact ⟨true, by
                    simp [needs_sync, dictGetD, hid, truthy, hse, pyMapLookup, hst, dictGet,
                      hefs, hcu, hcue, hsu]⟩
                · by_cases hsue : su = ""
                  · subst hsue
                    exact ⟨true, by
                      simp [needs_sync, dictGetD, hid, truthy, hse, pyMapLookup, hst,
                        dictGet, hefs, hcu, hcue, hsu]⟩
                  · exact ⟨decide (su < cu), by
                      simp [needs_sync, dictGetD, hid, truthy, hse, pyMapLookup, hst,
                        dictGet, hefs, hcu, hcue, hsu, hsue, pyGt]⟩
          · exact ⟨true, by
              simp [needs_sync, dictGetD, hid, truthy, hse, pyMapLookup, hst, dictGet, hefs]⟩
  | null => simp [docWF] at hd
  | bool b => simp [docWF] at hd
  | num n => simp [docWF] at hd
  | str s => simp [docWF] at hd
  | arr xs => simp [docWF] at hd

theorem runSync_inv (bodyOk : Nat → Bool) (stamp : Nat → String) :
    ∀ (docs : List JVal) (st : SyncLoopState) (i : Nat),
      (∀ d ∈ docs, docWF d = true) → stateWF st.documents = true → st.aborted = false →
      (runSyncDocs bodyOk stamp docs st i).aborted = false ∧
      (runSyncDocs bodyOk stamp docs st i).skippedInProgress
        = st.skippedInProgress + docs.countP docEndZero ∧
      ∀ dir ∈ (runSyncDocs bodyOk stamp docs st i).createdDirs,
        dir ∈ st.createdDirs ∨ ∃ d ∈ docs, docEndZero d = false ∧ docDirName d = some dir := by
  intro docs
  induction docs with
  | nil =>
    intro st i hd hs hab
    refine ⟨hab, by simp [runSyncDocs], ?_⟩
    intro dir hdir
    exact Or.inl hdir
  | cons d ds ih =>
    intro st i hd hs hab
    have hdw : docWF d = true := hd d (List.mem_cons_self _ _)
    have hds : ∀ d2 ∈ ds, docWF d2 = true := fun d2 h2 => hd d2 (List.mem_cons_of_mem _ h2)
    have hrun : runSyncDocs bodyOk stamp (d :: ds) st i
        = runSyncDocs bodyOk stamp ds (syncStep (bodyOk i) (stamp i) st d) (i + 1) := rfl
    rcases d with _ | b | n | s0 | xs | dfs
    rotate_left 5
    case obj =>
      by_cases hz : pyEqZero (dictGetD dfs "meeting_end_count" (.num 0))
      · have hstep : syncStep (bodyOk i) (stamp i) st (.obj dfs)
            = { st with skippedInProgress := st.skippedInProgress + 1 } := by
          simp [syncStep, hab, hz]
        rw [hrun, hstep]
        obtain ⟨h1, h2, h3⟩ := ih { st with skippedInProgress := st.skippedInProgress + 1 }
          (i + 1) hds hs hab
        refine ⟨h1, ?_, ?_⟩
        · rw [h2]
          simp [List.countP_cons, docEndZero, hz] <;> omega
        · intro dir hdir
          rcases h3 dir hdir with hmem | ⟨d2, hd2, hz2, hn⟩
          · exact Or.inl hmem
          · exact Or.inr ⟨d2, List.mem_cons_of_mem _ hd2, hz2, hn⟩
      · obtain ⟨b, hb⟩ := needs_sync_wf_some hdw hs
        have hcnt : List.countP docEndZero (JVal.obj dfs :: ds) = List.countP docEndZero ds := by
          simp only [List.countP_cons, docEndZero, hz]
          simp
        cases b
        · have hstep : syncStep (bodyOk i) (stamp i) st (.obj dfs)
              = { st with skippedUnchanged := st.skippedUnchanged + 1 } := by
            simp [syncStep, hab, hz, hb]
          rw [hrun, hstep]
          obtain ⟨h1, h2, h3⟩ := ih { st with skippedUnchanged := st.skippedUnchanged + 1 }
            (i + 1) hds hs hab
          refine ⟨h1, ?_, ?_⟩
          · rw [h2, hcnt]
          · intro dir hdir
            rcases h3 dir hdir with hmem | ⟨d2, hd2, hz2, hn⟩
            · exact Or.inl hmem
            · exact Or.inr ⟨d2, List.mem_cons_of_mem _ hd2, hz2, hn⟩
        · obtain ⟨s, hsid⟩ : ∃ s, dictGetD dfs "id" (.str "unknown_id") = .str s := by
            rcases docWF_id hdw with h | ⟨s, h⟩
            · exact ⟨"unknown_id", by simp [dictGetD, h]⟩
            · exact ⟨s, by simp [dictGetD, h]⟩
          have hdname : docDirName (.obj dfs) = some s := by
            simp [docDirName, hsid]
          have hnewWF : updFieldOk
              [("updated_at", dictGetD dfs "updated_at" .null),
               ("title", dictGetD dfs "title" (.str "Untitled Granola Note")),
               ("synced_at", .str (stamp i))] = true := by
            rcases updFieldOk_cases (docWF_upd hdw) with h | ⟨u, h⟩
            · simp [updFieldOk, dictGet, dictGetD, h]
            · simp [updFieldOk, dictGet, dictGetD, h]
          cases hbody : bodyOk i
          · have hstep : syncStep (bodyOk i) (stamp i) st (.obj dfs)
                = { st with createdDirs := st.createdDirs ++ [s] } := by
              simp [syncStep, hab, hz, hb, hsid, hbody]
            rw [hrun, hstep]
            obtain ⟨h1, h2, h3⟩ := ih { st with createdDirs := st.createdDirs ++ [s] }
              (i + 1) hds hs hab
            refine ⟨h1, ?_, ?_⟩
            · rw [h2, hcnt]
            · intro dir hdir
              rcases h3 dir hdir with hmem | ⟨d2, hd2, hz2, hn⟩
              · rcases List.mem_append.mp hmem with hmem | hmem
                · exact Or.inl hmem
                · exact Or.inr ⟨.obj dfs, List.mem_cons_self _ _, by simpa [docEndZero] using hz,
                    by rw [List.mem_singleton.mp hmem]; exact hdname⟩
              · exact Or.inr ⟨d2, List.mem_cons_of_mem _ hd2, hz2, hn⟩
          · have hstep : syncStep (bodyOk i) (stamp i) st (.obj dfs)
                = { st with
                    createdDirs := st.createdDirs ++ [s]
                    documents := dictSet st.documents s
                      (.obj [("updated_at", dictGetD dfs "updated_at" .null),
                             ("title", dictGetD dfs "title" (.str "Untitled Granola Note")),
                             ("synced_at", .str (stamp i))])
                    synced := st.synced + 1 } := by
              simp [syncStep, hab, hz, hb, hsid, hbody]
            rw [hrun, hstep]
            obtain ⟨h1, h2, h3⟩ := ih
              { st with
                createdDirs := st.createdDirs ++ [s]
                documents := dictSet st.documents s
                  (.obj [("updated_at", dictGetD dfs "updated_at" .null),
                         ("title", dictGetD dfs "title" (.str "Untitled Granola Note")),
                         ("synced_at", .str (stamp i))])
                synced := st.synced + 1 }
              (i + 1) hds (stateWF_dictSet hs hnewWF) hab
            refine ⟨h1, ?_, ?_⟩
            · rw [h2, hcnt]
            · intro dir hdir
              rcases h3 dir hdir with hmem | ⟨d2, hd2, hz2, hn⟩
              · rcases List.mem_append.mp hmem with hmem | hmem
                · exact Or.inl hmem
                · exact Or.inr ⟨.obj dfs, List.mem_cons_self _ _, by simpa [docEndZero] using hz,
                    by rw [List.mem_singleton.mp hmem]; exact hdname⟩
              · exact Or.inr ⟨d2, List.mem_cons_of_mem _ hd2, hz2, hn⟩
    all_goals simp [docWF] at hdw

/-- C2: over any run of the document loop on well-formed remote documents
and sync state, a document with `meeting_end_count == 0` never has an
artifact directory created for it — every directory created belongs to a
document whose end count is non-zero — and each such document is counted
in the skipped-in-progress counter rather than treated as an error (the
run does not abort). -/
theorem c2_end_count_zero_skipped (docs : List JVal) (bodyOk : Nat → Bool)
    (stamp : Nat → String) (documents0 : List (String × JVal))
    (hd : ∀ d ∈ docs, docWF d = true) (hs : stateWF documents0 = true) :
    (runSyncDocs bodyOk stamp docs (initLoopState documents0) 0).aborted = false ∧
    (runSyncDocs bodyOk stamp docs (initLoopState documents0) 0).skippedInProgress
      = docs.countP docEndZero ∧
    ∀ dir ∈ (runSyncDocs bodyOk stamp docs (initLoopState documents0) 0).createdDirs,
      ∃ d ∈ docs, docEndZero d = false ∧ docDirName d = some dir := by
  obtain ⟨h1, h2, h3⟩ := runSync_inv bodyOk stamp docs (initLoopState documents0) 0 hd hs rfl
  refine ⟨h1, by simpa [initLoopState] using h2, ?_⟩
  intro dir hdir
  rcases h3 dir hdir with hmem | hex
  · simp [initLoopState] at hmem
  · exact hex

/-- Witness for C2: one in-progress document (skipped, no folder) and one
finished document (processed, folder created). -/
theorem c2_end_count_zero_skipped_witness :
    (runSyncDocs (fun _ => true) (fun _ => "t")
        [.obj [("id", .str "p"), ("meeting_end_count", .num 0)],
         .obj [("id", .str "q"), ("meeting_end_count", .num 2)]]
        (initLoopState []) 0).aborted = false ∧
    (runSyncDocs (fun _ => true) (fun _ => "t")
        [.obj [("id", .str "p"), ("meeting_end_count", .num 0)],
         .obj [("id", .str "q"), ("meeting_end_count", .num 2)]]
        (initLoopState []) 0).skippedInProgress
      = List.countP docEndZero
          [.obj [("id", .str "p"), ("meeting_end_count", .num 0)],
           .obj [("id", .str "q"), ("meeting_end_count", .num 2)]] ∧
    ∀ dir ∈ (runSyncDocs (fun _ => true) (fun _ => "t")
        [.obj [("id", .str "p"), ("meeting_end_count", .num 0)],
         .obj [("id", .str "q"), ("meeting_end_count", .num 2)]]
        (initLoopState []) 0).createdDirs,
      ∃ d ∈ [JVal.obj [("id", .str "p"), ("meeting_end_count", .num 0)],
             JVal.obj [("id", .str "q"), ("meeting_end_count", .num 2)]],
        docEndZero d = false ∧ docDirName d = some dir :=
  c2_end_count_zero_skipped _ _ _ []
    (by
      intro d hd
      simp only [List.mem_cons, List.mem_singleton] at hd
      rcases hd with h | h | h
      · rw [h]; rfl
      · rw [h]; rfl
      · simp at h)
    rfl

/-! ### Claim C7 -/

/-- C7 counterexample: a document with no calendar start/end instants but an
embedded `extendedProperties.shared.meetingParams.duration` of `-5` resolves
to duration `-5` — the fallback path returns non-positive values, refuting
"never a non-positive value". -/
theorem c7_counterexample :
    extract_duration (fun _ => none)
      (some (.obj [("google_calendar_event", .obj
        [("extendedProperties", .obj
          [("shared", .obj [("meetingParams", .obj [("duration", .num (-5))])])])])]))
      = some (.num (-5)) := rfl

/-- C7 (amended): the duration computed from calendar-event start/end
instants is always strictly positive (non-positive differences are
discarded), resolution tries the instants first and only then the two
extended-property scopes, and the documented example (10:00Z to 10:30Z)
resolves to 30; the extended-properties fallback, however, returns any
numeric embedded value, including non-positive ones. -/
theorem c7_duration_amended :
    (∀ (gfs : List (String × JVal)) (n : Int), durationFromTimes gfs = some n → 0 < n) ∧
    (∀ (jl : String → Option JVal) (dfs gfs : List (String × JVal)) (v : JVal),
        dictGet dfs "google_calendar_event" = some (.obj gfs) →
        extract_duration jl (some (.obj dfs)) = some v →
        (∃ n, durationFromTimes gfs = some n ∧ v = .num n) ∨
        (durationFromTimes gfs = none ∧ durFromExt jl gfs = some v)) ∧
    extract_duration (fun _ => none)
      (some (.obj [("google_calendar_event", .obj
        [("start", .obj [("dateTime", .str "2024-01-01T10:00:00Z")]),
         ("end", .obj [("dateTime", .str "2024-01-01T10:30:00Z")])])]))
      = some (.num 30) := by
  refine ⟨?_, ?_, ?_⟩
  · intro gfs n h
    unfold durationFromTimes at h
    simp only [] at h
    repeat' split at h
    all_goals try exact Option.noConfusion h
    all_goals simp only [Option.some.injEq] at h
    all_goals omega
  · intro jl dfs gfs v hg h
    unfold extract_duration at h
    simp only [] at h
    rw [hg] at h
    simp only [] at h
    rcases hdt : durationFromTimes gfs with _ | dm
    · rw [hdt] at h
      exact Or.inr ⟨rfl, h⟩
    · rw [hdt] at h
      simp only [Option.some.injEq] at h
      exact Or.inl ⟨dm, rfl, h.symm⟩
  · rfl

/-- Witness for the amended C7: the documented example instants give a
strictly positive duration of 30 minutes. -/
theorem c7_duration_amended_witness :
    durationFromTimes
        [("start", .obj [("dateTime", .str "2024-01-01T10:00:00Z")]),
         ("end", .obj [("dateTime", .str "2024-01-01T10:30:00Z")])] = some 30 ∧
      (0 : Int) < 30 :=
  ⟨rfl, c7_duration_amended.1
    [("start", .obj [("dateTime", .str "2024-01-01T10:00:00Z")]),
     ("end", .obj [("dateTime", .str "2024-01-01T10:30:00Z")])] 30 rfl⟩

/-! ### Claim C3 -/

theorem headingHashes_wf {fs : List (String × JVal)}
    (hattrs : ∀ a, dictGet fs "attrs" = some a → ∃ afs, a = .obj afs ∧
        ∀ lv, dictGet afs "level" = some lv → (∃ n, lv = .num n) ∨ (∃ b, lv = .bool b)) :
    ∃ hs, headingHashes fs = some hs := by
  unfold headingHashes
  rcases ha : dictGet fs "attrs" with _ | a
  · exact ⟨_, rfl⟩
  · obtain ⟨afs, rfl, hlv⟩ := hattrs a ha
    simp only []
    rcases hl : dictGet afs "level" with _ | lv
    · exact ⟨_, rfl⟩
    · rcases hlv lv hl with ⟨n, rfl⟩ | ⟨b, rfl⟩
      · exact ⟨_, rfl⟩
      · exact ⟨_, rfl⟩

theorem renderer_wf_strong : ∀ N : Nat,
    (∀ v, jsize v ≤ N → NodeWF v → ∃ s, processNode v = some (.str s)) ∧
    (∀ xs, jsizeList xs ≤ N → (∀ x ∈ xs, NodeWF x) →
      (∃ s, processList xs = some s) ∧ (∃ items, processItemsList xs = some items)) := by
  intro N
  induction N using Nat.strong_induction_on with
  | _ N ih =>
    have hchild : ∀ c, jsize c ≤ N → (∃ xs, c = .arr xs ∧ ∀ x ∈ xs, NodeWF x) →
        ∃ s, processChildren c = some s := by
      intro c hsz hsh
      obtain ⟨xs, rfl, hwf⟩ := hsh
      have hlt : jsizeList xs < N := by
        have : jsize (JVal.arr xs) = 1 + jsizeList xs := by simp [jsize]
        omega
      obtain ⟨⟨s, hs⟩, _⟩ := (ih _ hlt).2 xs le_rfl hwf
      exact ⟨s, by simp [processChildren, hs]⟩
    constructor
    · intro v hsz hwf
      rcases hwf with ⟨fs, htext, hcshape, hcwf, hattrs⟩
      have hcsub : ∀ c, dictGet fs "content" = some c → jsize c ≤ N := by
        intro c hc
        have := dictGet_jsize_lt hc
        omega
      have hcgood : ∀ c, dictGet fs "content" = some c →
          ∃ xs, c = .arr xs ∧ ∀ x ∈ xs, NodeWF x := by
        intro c hc
        obtain ⟨xs, rfl⟩ := hcshape c hc
        exact ⟨xs, rfl, hcwf xs hc⟩
      rw [processNode.eq_def]
      simp only []
      split
      · -- heading
        obtain ⟨hss, hh⟩ := headingHashes_wf hattrs
        rw [hh]
        rcases hc : dictGet fs "content" with _ | c
        · exact ⟨_, rfl⟩
        · obtain ⟨s, hs⟩ := hchild c (hcsub c hc) (hcgood c hc)
          simp only []
          rw [hs]
          exact ⟨_, rfl⟩
      · split
        · -- paragraph
          rcases hc : dictGet fs "content" with _ | c
          · exact ⟨_, rfl⟩
          · obtain ⟨s, hs⟩ := hchild c (hcsub c hc) (hcgood c hc)
            simp only []
            rw [hs]
            exact ⟨_, rfl⟩
        · split
          · -- bulletList
            rcases hc : dictGet fs "content" with _ | c
            · exact ⟨_, rfl⟩
            · obtain ⟨xs, rfl, hwfc⟩ := hcgood c hc
              have hlt : jsizeList xs < N := by
                have h1 := hcsub _ hc
                have : jsize (JVal.arr xs) = 1 + jsizeList xs := by simp [jsize]
                omega
              obtain ⟨_, ⟨items, hitems⟩⟩ := (ih _ hlt).2 xs le_rfl hwfc
              have hiv : processItemsVal (.arr xs) = some items := by
                simp [processItemsVal, hitems]
              simp only []
              rw [hiv]
              exact ⟨_, rfl⟩
          · split
            · -- text
              rcases htv : dictGet fs "text" with _ | tv
              · exact ⟨"", by simp [dictGetD, htv]⟩
              · obtain ⟨s, rfl⟩ := htext tv htv
                exact ⟨s, by simp [dictGetD, htv]⟩
            · -- default
              rcases hc : dictGet fs "content" with _ | c
              · exact ⟨_, rfl⟩
              · obtain ⟨s, hs⟩ := hchild c (hcsub c hc) (hcgood c hc)
                simp only []
                rw [hs]
                exact ⟨_, rfl⟩
    · intro xs hsz hwf
      cases xs with
      | nil => exact ⟨⟨"", by simp [processList]⟩, ⟨[], by simp [processItemsList]⟩⟩
      | cons x rest =>
        have hxwf : NodeWF x := hwf x (List.mem_cons_self _ _)
        have hrwf : ∀ y ∈ rest, NodeWF y := fun y hy => hwf y (List.mem_cons_of_mem _ hy)
        have hxlt : jsize x < N := by
          have : jsizeList (x :: rest) = 1 + jsize x + jsizeList rest := by simp [jsizeList]
          omega
        have hrlt : jsizeList rest < N := by
          have : jsizeList (x :: rest) = 1 + jsize x + jsizeList rest := by simp [jsizeList]
          have hpos := jsize_pos x
          omega
        obtain ⟨sx, hpx⟩ := (ih _ hxlt).1 x le_rfl hxwf
        obtain ⟨⟨sr, hpr⟩, ⟨ir, hir⟩⟩ := (ih _ hrlt).2 rest le_rfl hrwf
        constructor
        · refine ⟨sx ++ sr, ?_⟩
          rw [processList.eq_def]
          simp only []
          rw [hpx]
          simp only []
          rw [hpr]
        · rcases hxwf with ⟨ifs, htext2, hcshape2, hcwf2, hattrs2⟩
          rw [processItemsList.eq_def]
          simp only []
          split
          · -- listItem
            rcases hc : dictGet ifs "content" with _ | c
            · simp only []
              rw [hir]
              exact ⟨_, rfl⟩
            · have hclt : jsize c ≤ N := by
                have h1 := dictGet_jsize_lt hc
                have : jsizeList (JVal.obj ifs :: rest)
                    = 1 + jsize (JVal.obj ifs) + jsizeList rest := by simp [jsizeList]
                omega
              obtain ⟨cxs, rfl⟩ := hcshape2 c hc
              obtain ⟨ic, hic⟩ := hchild _ hclt ⟨cxs, rfl, hcwf2 cxs hc⟩
              simp only []
              rw [hic]
              simp only []
              rw [hir]
              exact ⟨_, rfl⟩
          · exact ⟨ir, hir⟩

/-- C3 counterexample: the renderer is not total-to-string — a node tree
whose bare `text` node carries a non-string `text` value makes
`convert_prosemirror_to_markdown` return that raw value (here the integer
5), not a string; nested deeper, the same value raises in `str.join`. -/
theorem c3_counterexample :
    convert_prosemirror_to_markdown
      (.obj [("content", .arr []), ("type", .str "text"), ("text", .num 5)]) = some (.num 5) := by
  unfold convert_prosemirror_to_markdown
  rw [if_neg (by decide)]
  simp only []
  rw [if_pos (by decide)]
  rw [processNode.eq_def]
  simp only []
  rw [if_neg (by decide), if_neg (by decide), if_neg (by decide), if_pos (by decide)]
  rfl

/-- C3 (amended): the renderer returns the empty string for absent or
malformed top-level input (falsy, non-dict, or missing `content` key), and
returns a string without raising on every structurally well-formed node
tree; on certain malformed nested nodes, however, it can return a
non-string value or raise, so it is not total over arbitrary input. -/
theorem c3_render_amended :
    (∀ v, topGuardFails v = true → convert_prosemirror_to_markdown v = some (.str "")) ∧
    (∀ v, NodeWF v → ∃ s, convert_prosemirror_to_markdown v = some (.str s)) := by
  constructor
  · intro v hg
    unfold convert_prosemirror_to_markdown
    cases htv : truthy v
    · rw [if_pos (by simp [htv])]
    · rw [if_neg (by simp [htv])]
      cases v with
      | obj fs =>
        simp only [topGuardFails, htv] at hg
        simp only []
        rw [if_neg (by simpa using hg)]
      | null => rfl
      | bool b => rfl
      | num n => rfl
      | str s => rfl
      | arr xs => rfl
  · intro v hwf
    unfold convert_prosemirror_to_markdown
    cases htv : truthy v
    · rw [if_pos (by simp [htv])]
      exact ⟨"", rfl⟩
    · rw [if_neg (by simp [htv])]
      rcases hwf with ⟨fs, htext, hcshape, hcwf, hattrs⟩
      simp only []
      cases hcs : (dictGet fs "content").isSome
      · rw [if_neg (by simp [hcs])]
        exact ⟨"", rfl⟩
      · rw [if_pos (by simp [hcs])]
        exact (renderer_wf_strong (jsize (.obj fs))).1 _ le_rfl
          ⟨fs, htext, hcshape, hcwf, hattrs⟩

/-- Witness for the amended C3: a falsy input renders to the empty string,
and the documented one-paragraph example renders to a string. -/
theorem c3_render_amended_witness :
    convert_prosemirror_to_markdown .null = some (.str "") ∧
    ∃ s, convert_prosemirror_to_markdown
        (.obj [("type", .str "doc"), ("content", .arr
          [.obj [("type", .str "paragraph"), ("content", .arr
            [.obj [("type", .str "text"), ("text", .str "hello")]])]])]) = some (.str s) :=
  ⟨c3_render_amended.1 .null rfl,
    c3_render_amended.2 _
      (NodeWF.mk _ (by intro v hv; simp [dictGet] at hv)
        (by
          intro c hc
          simp [dictGet] at hc
          exact ⟨_, hc.symm⟩)
        (by
          intro xs hxs x hx
          simp [dictGet] at hxs
          rw [← hxs] at hx
          simp at hx
          subst hx
          exact NodeWF.mk _ (by intro v hv; simp [dictGet] at hv)
            (by
              intro c hc
              simp [dictGet] at hc
              exact ⟨_, hc.symm⟩)
            (by
              intro xs2 hxs2 x2 hx2
              simp [dictGet] at hxs2
              rw [← hxs2] at hx2
              simp at hx2
              subst hx2
              exact NodeWF.mk _ (by intro v hv; simp [dictGet] at hv; exact ⟨_, hv.symm⟩)
                (by intro c hc; simp [dictGet] at hc)
                (by intro xs3 hxs3; simp [dictGet] at hxs3)
                (by intro a ha; simp [dictGet] at ha))
            (by intro a ha; simp [dictGet] at ha))
        (by intro a ha; simp [dictGet] at ha))⟩

/-! ### Claim C8 -/

theorem buildRecord_dir {root : String} {lz : Int → Option LocalTime}
    {jl : String → Option JVal} {e : DirEntry} {m : MeetingRec}
    (h : buildRecord root lz jl e = some m) : m.dir = e.name := by
  unfold buildRecord at h
  simp only [] at h
  rcases hs : shortIdOf (choose_id e.meta e.doc e.name) e.name with _ | sid
  · rw [hs] at h
    exact Option.noConfusion h
  · rw [hs] at h
    simp only [Option.map_some', Option.some.injEq] at h
    rw [← h]

theorem buildRecord_date_ne_empty {root : String} {lz : Int → Option LocalTime}
    {jl : String → Option JVal} {e : DirEntry} {m : MeetingRec}
    (h : buildRecord root lz jl e = some m) :
    ∀ s, m.date_utc = some s → s ≠ "" := by
  unfold buildRecord at h
  simp only [] at h
  rcases hs : shortIdOf (choose_id e.meta e.doc e.name) e.name with _ | sid
  · rw [hs] at h
    exact Option.noConfusion h
  · rw [hs] at h
    simp only [Option.map_some', Option.some.injEq] at h
    intro s hds
    rw [← h] at hds
    simp only [Option.map_eq_some'] at hds
    obtain ⟨micro, _, hiso⟩ := hds
    rw [← hiso]
    exact isoZStr_ne_empty micro

theorem buildRecords_mem {root : String} {lz : Int → Option LocalTime}
    {jl : String → Option JVal} :
    ∀ {l : List DirEntry} {r : List MeetingRec}, buildRecords root lz jl l = some r →
      ∀ m ∈ r, ∃ e ∈ l, buildRecord root lz jl e = some m := by
  intro l
  induction l with
  | nil =>
    intro r h m hm
    simp only [buildRecords, Option.some.injEq] at h
    subst h
    simp at hm
  | cons e es ih =>
    intro r h m hm
    simp only [buildRecords] at h
    rcases hb : buildRecord root lz jl e with _ | m0
    · rw [hb] at h
      exact Option.noConfusion h
    · rw [hb] at h
      rcases hr : buildRecords root lz jl es with _ | r0
      · rw [hr] at h
        exact Option.noConfusion h
      · rw [hr] at h
        simp only [Option.map_some', Option.some.injEq] at h
        subst h
        rcases List.mem_cons.mp hm with hm | hm
        · exact ⟨e, List.mem_cons_self _ _, hm ▸ hb⟩
        · obtain ⟨e2, he2, hb2⟩ := ih hr m hm
          exact ⟨e2, List.mem_cons_of_mem _ he2, hb2⟩

/-- C8: the emitted `meetings` sequence is sorted ascending by the pair
(`date_utc` with an empty-string sentinel for absent, directory name), and
every record with no resolvable date precedes every record with one. -/
theorem c8_index_sorted (root : String) (lz : Int → Option LocalTime)
    (jl : String → Option JVal) (entries : List DirEntry) (now : Int) :
    List.Pairwise recLe
      (((build_index root lz jl entries now).map IndexSnapshot.meetings).getD []) ∧
    List.Pairwise (fun a b => b.date_utc = none → a.date_utc = none)
      (((build_index root lz jl entries now).map IndexSnapshot.meetings).getD []) := by
  rcases hb : buildIndexMeetings root lz jl entries with _ | ms
  · simp [build_index, hb]
  · have hmsval : ((build_index root lz jl entries now).map IndexSnapshot.meetings).getD []
        = ms := by
      simp [build_index, hb]
    rw [hmsval]
    unfold buildIndexMeetings at hb
    rcases hr : buildRecords root lz jl
        (entries.filter fun e => e.isDir && isUuidFolder e.name) with _ | r
    · rw [hr] at hb
      exact Option.noConfusion hb
    · rw [hr] at hb
      simp only [Option.map_some', Option.some.injEq] at hb
      subst hb
      have hsorted : List.Pairwise recLe (List.insertionSort recLe r) :=
        List.sorted_insertionSort recLe r
      refine ⟨hsorted, ?_⟩
      have hmemprop : ∀ m ∈ List.insertionSort recLe r, ∀ s, m.date_utc = some s → s ≠ "" := by
        intro m hm
        have hm2 : m ∈ r := (List.perm_insertionSort recLe r).mem_iff.mp hm
        obtain ⟨e, _, hbe⟩ := buildRecords_mem hr m hm2
        exact buildRecord_date_ne_empty hbe
      refine List.Pairwise.imp_of_mem ?_ hsorted
      intro a b ha hb2 hrel hbnone
      have hkey : sortKey a ≤ sortKey b := hrel
      simp only [sortKey] at hkey
      rw [Prod.Lex.le_iff] at hkey
      simp only [] at hkey
      rcases hkey with hlt | ⟨heq, _⟩
      · exfalso
        simp only [hbnone, Option.getD_none] at hlt
        exact not_string_lt_empty _ hlt
      · simp only [hbnone, Option.getD_none] at heq
        rcases hda : a.date_utc with _ | s
        · rfl
        · exfalso
          rw [hda] at heq
          simp only [Option.getD_some] at heq
          exact hmemprop a ha s hda heq

/-! ### Claim C6 -/

theorem sorted_perm_nodup_eq {α : Type _} {κ : Type _} [LinearOrder κ] (key : α → κ) :
    ∀ (l₁ l₂ : List α), l₁.Perm l₂ → l₁.Pairwise (fun a b => key a ≤ key b) →
      l₂.Pairwise (fun a b => key a ≤ key b) → (l₁.map key).Nodup → l₁ = l₂ := by
  intro l₁
  induction l₁ with
  | nil =>
    intro l₂ hp _ _ _
    exact List.Perm.nil_eq hp
  | cons a t ih =>
    intro l₂ hp hs₁ hs₂ hnd
    cases l₂ with
    | nil => exact absurd (List.Perm.nil_eq hp.symm) (by simp)
    | cons b u =>
      have hab : a = b := by
        by_contra hne
        have ha2 : a ∈ b :: u := hp.mem_iff.mp (List.mem_cons_self a t)
        have hb1 : b ∈ a :: t := hp.symm.mem_iff.mp (List.mem_cons_self b u)
        have ha2u : a ∈ u := by
          rcases List.mem_cons.mp ha2 with h | h
          · exact absurd h hne
          · exact h
        have hb1t : b ∈ t := by
          rcases List.mem_cons.mp hb1 with h | h
          · exact absurd h.symm hne
          · exact h
        have h1 : key a ≤ key b := List.rel_of_pairwise_cons hs₁ hb1t
        have h2 : key b ≤ key a := List.rel_of_pairwise_cons hs₂ ha2u
        have hknd : (∀ x ∈ t, ¬key x = key a) ∧ (List.map key t).Nodup := by
          simpa using hnd
        exact hknd.1 b hb1t (le_antisymm h2 h1)
      subst hab
      have hknd : (∀ x ∈ t, ¬key x = key a) ∧ (List.map key t).Nodup := by
        simpa using hnd
      rw [ih u hp.cons_inv (List.Pairwise.of_cons hs₁) (List.Pairwise.of_cons hs₂) hknd.2]

theorem buildRecords_eq_none_iff {root : String} {lz : Int → Option LocalTime}
    {jl : String → Option JVal} :
    ∀ (l : List DirEntry), buildRecords root lz jl l = none ↔
      ∃ e ∈ l, buildRecord root lz jl e = none := by
  intro l
  induction l with
  | nil => simp [buildRecords]
  | cons e es ih =>
    simp only [buildRecords]
    rcases hb : buildRecord root lz jl e with _ | m0
    · simp [hb]
    · rcases hr : buildRecords root lz jl es with _ | r0
      · simp only [Option.map_none']
        constructor
        · intro _
          obtain ⟨e2, he2, hb2⟩ := (ih).mp hr
          exact ⟨e2, List.mem_cons_of_mem _ he2, hb2⟩
        · intro _
          trivial
      · simp only [Option.map_some']
        constructor
        · intro h
          exact absurd h (by simp)
        · rintro ⟨e2, he2, hb2⟩
          exfalso
          rcases List.mem_cons.mp he2 with h | h
          · rw [h] at hb2
            rw [hb] at hb2
            exact Option.noConfusion hb2
          · have hnone2 : buildRecords root lz jl es = none := (ih).mpr ⟨e2, h, hb2⟩
            rw [hr] at hnone2
            exact Option.noConfusion hnone2
  
theorem buildRecords_eq_map {root : String} {lz : Int → Option LocalTime}
    {jl : String → Option JVal} :
    ∀ {l : List DirEntry} {r : List MeetingRec}, buildRecords root lz jl l = some r →
      r = l.map (fun e => (buildRecord root lz jl e).getD default) := by
  intro l
  induction l with
  | nil =>
    intro r h
    simp only [buildRecords, Option.some.injEq] at h
    simp [← h]
  | cons e es ih =>
    intro r h
    simp only [buildRecords] at h
    rcases hb : buildRecord root lz jl e with _ | m0
    · rw [hb] at h
      exact Option.noConfusion h
    · rw [hb] at h
      rcases hr : buildRecords root lz jl es with _ | r0
      · rw [hr] at h
        exact Option.noConfusion h
      · rw [hr] at h
        simp only [Option.map_some', Option.some.injEq] at h
        subst h
        simp only [List.map_cons, hb, Option.getD_some]
        rw [← ih hr]

theorem buildRecords_all_isSome {root : String} {lz : Int → Option LocalTime}
    {jl : String → Option JVal} :
    ∀ {l : List DirEntry} {r : List MeetingRec}, buildRecords root lz jl l = some r →
      ∀ e ∈ l, (buildRecord root lz jl e).isSome = true := by
  intro l r h e he
  by_contra hns
  have hnone : buildRecord root lz jl e = none := by
    rcases hx : buildRecord root lz jl e with _ | m0
    · rfl
    · rw [hx] at hns
      simp at hns
  have : buildRecords root lz jl l = none :=
    (buildRecords_eq_none_iff l).mpr ⟨e, he, hnone⟩
  rw [h] at this
  exact Option.noConfusion this

/-- C6: rebuilding the index over the same artifact tree — the same
directory entries in any scan order, with distinct directory names — at two
different times yields identical meeting records, schema version and root;
only the `generated_at` stamp depends on the build instant. -/
theorem c6_rebuild_deterministic (root : String) (lz : Int → Option LocalTime)
    (jl : String → Option JVal) (e1 e2 : List DirEntry) (t1 t2 : Int)
    (hperm : e1.Perm e2) (hnd : (e1.map DirEntry.name).Nodup) :
    (build_index root lz jl e1 t1).map IndexSnapshot.meetings
      = (build_index root lz jl e2 t2).map IndexSnapshot.meetings ∧
    (build_index root lz jl e1 t1).map IndexSnapshot.schema_version
      = (build_index root lz jl e2 t2).map IndexSnapshot.schema_version ∧
    (build_index root lz jl e1 t1).map IndexSnapshot.root
      = (build_index root lz jl e2 t2).map IndexSnapshot.root := by
  have hf : (e1.filter (fun e => e.isDir && isUuidFolder e.name)).Perm
      (e2.filter (fun e => e.isDir && isUuidFolder e.name)) := hperm.filter _
  rcases hr1 : buildRecords root lz jl
      (e1.filter (fun e => e.isDir && isUuidFolder e.name)) with _ | r1
  · have hr2 : buildRecords root lz jl
        (e2.filter (fun e => e.isDir && isUuidFolder e.name)) = none := by
      apply (buildRecords_eq_none_iff _).mpr
      obtain ⟨e0, he0, hb0⟩ := (buildRecords_eq_none_iff _).mp hr1
      exact ⟨e0, hf.mem_iff.mp he0, hb0⟩
    have hb1 : build_index root lz jl e1 t1 = none := by
      unfold build_index buildIndexMeetings
      rw [hr1]
      rfl
    have hb2 : build_index root lz jl e2 t2 = none := by
      unfold build_index buildIndexMeetings
      rw [hr2]
      rfl
    rw [hb1, hb2]
    exact ⟨rfl, rfl, rfl⟩
  · have hall1 := buildRecords_all_isSome hr1
    obtain ⟨r2, hr2⟩ : ∃ r2, buildRecords root lz jl
        (e2.filter (fun e => e.isDir && isUuidFolder e.name)) = some r2 := by
      rcases hx : buildRecords root lz jl
          (e2.filter (fun e => e.isDir && isUuidFolder e.name)) with _ | r2
      · exfalso
        obtain ⟨e0, he0, hb0⟩ := (buildRecords_eq_none_iff _).mp hx
        have hsome := hall1 e0 (hf.mem_iff.mpr he0)
        rw [hb0] at hsome
        simp at hsome
      · exact ⟨r2, rfl⟩
    have hm1 := buildRecords_eq_map hr1
    have hm2 := buildRecords_eq_map hr2
    have hrperm : r1.Perm r2 := by
      rw [hm1, hm2]
      exact hf.map _
    have hs1 : List.Pairwise recLe (List.insertionSort recLe r1) :=
      List.sorted_insertionSort recLe r1
    have hs2 : List.Pairwise recLe (List.insertionSort recLe r2) :=
      List.sorted_insertionSort recLe r2
    have hperm_sorted : (List.insertionSort recLe r1).Perm (List.insertionSort recLe r2) :=
      ((List.perm_insertionSort recLe r1).trans hrperm).trans
        (List.perm_insertionSort recLe r2).symm
    have hdirs : (r1.map MeetingRec.dir)
        = (e1.filter (fun e => e.isDir && isUuidFolder e.name)).map DirEntry.name := by
      rw [hm1, List.map_map]
      apply List.map_congr_left
      intro e0 he0
      have hsome := hall1 e0 he0
      rcases hx : buildRecord root lz jl e0 with _ | m0
      · rw [hx] at hsome
        simp at hsome
      · simp only [Function.comp_apply, hx, Option.getD_some]
        exact buildRecord_dir hx
    have hnddirs : (r1.map MeetingRec.dir).Nodup := by
      rw [hdirs]
      exact List.Nodup.sublist
        ((List.filter_sublist e1).map DirEntry.name) hnd
    have hndkeys : ((List.insertionSort recLe r1).map sortKey).Nodup := by
      have h1 : (r1.map sortKey).Nodup := by
        have hpw : r1.Pairwise (fun a b => MeetingRec.dir a ≠ MeetingRec.dir b) :=
          (List.pairwise_map).mp hnddirs
      
        apply (List.pairwise_map).mpr
        apply hpw.imp
        intro a b hab hk
        exact hab (by simpa [sortKey] using congrArg Prod.snd (toLex_inj.mp hk))
      have hpp : ((List.insertionSort recLe r1).map sortKey).Perm (r1.map sortKey) :=
        (List.perm_insertionSort recLe r1).map _
      exact (hpp.nodup_iff).mpr h1
    have heq := sorted_perm_nodup_eq sortKey _ _ hperm_sorted hs1 hs2 hndkeys
    have hbi1 : build_index root lz jl e1 t1 = some
        { schema_version := 1, generated_at := isoZStr t1, root := root,
          meetings := List.insertionSort recLe r1 } := by
      unfold build_index buildIndexMeetings
      rw [hr1]
      rfl
    have hbi2 : build_index root lz jl e2 t2 = some
        { schema_version := 1, generated_at := isoZStr t2, root := root,
          meetings := List.insertionSort recLe r2 } := by
      unfold build_index buildIndexMeetings
      rw [hr2]
      rfl
    rw [hbi1, hbi2]
    refine ⟨?_, ?_, ?_⟩
    all_goals simp only [Option.map_some', Option.some.injEq]
    · exact heq
    all_goals rfl

/-- Witness for C6: two listings of the same two-directory tree in opposite
scan orders, built at different instants, produce equal meeting lists. -/
theorem c6_rebuild_deterministic_witness :
    (build_index "/r" (fun _ => none) (fun _ => none)
        [⟨"123e4567-e89b-12d3-a456-426614174000", true, none, none, false, false, false, 7⟩,
         ⟨"123e4567-e89b-12d3-a456-426614174001", true, none, none, true, false, true, 9⟩]
        11).map IndexSnapshot.meetings
      = (build_index "/r" (fun _ => none) (fun _ => none)
        [⟨"123e4567-e89b-12d3-a456-426614174001", true, none, none, true, false, true, 9⟩,
         ⟨"123e4567-e89b-12d3-a456-426614174000", true, none, none, false, false, false, 7⟩]
        22).map IndexSnapshot.meetings :=
  (c6_rebuild_deterministic "/r" (fun _ => none) (fun _ => none) _ _ 11 22
    (List.Perm.swap _ _ [])
    (by simp)).1
